import Mathlib

/-!
Verification development for the backstage-grpc-playground-backend repository.

The definitions below are a shallow embedding of the TypeScript sources:

* the proto loading pipeline (`loadProtosFromFile`, `saveProtoTextAsFile`
  together with the path helpers from `src/service/utils.ts`),
* the gRPC invocation engine (`GRPCRequest` in `src/api/sendRequest.ts`),
* the certificate content encoder (`DefaultEncoder` in
  `src/service/CertStore/encrypt.ts`), modelled down to the AES-256-CBC
  cipher it delegates to.

External effects (file system, descriptor parser, transport) are made
explicit: fallible operations return `Option`/`Except`, stateful code is
explicit state passing, and the outcome of each descriptor-parser call is
part of the input of the embedded loader.
-/

namespace GrpcPlayground

/-! ## Path model

Embeds the node `path` helpers as used by `src/service/utils.ts` for POSIX
paths.  `pathRelative` models `path.relative` for the case where the target
lies under the base directory, which is the only case the loader produces
(absolute paths handed to it are formed by `path.resolve(basePath, p)`).
-/

def isAbsolutePath (p : String) : Bool :=
  match p.data with
  | c :: _ => c == '/'
  | [] => false

/-- Model of node `path.basename`: the last non-empty component. -/
def basename (p : String) : String :=
  (((p.splitOn "/").filter (fun s => s ≠ "")).getLast?).getD ""

/-- Model of node `path.relative base p` for `p` under `base`. -/
def pathRelative (base p : String) : String :=
  if p = base then ""
  else if (base ++ "/").isPrefixOf p then p.drop (base.length + 1)
  else p

/-- `getRelativePath` from `src/service/utils.ts`. -/
def getRelativePath (base p : String) : String :=
  if isAbsolutePath p then pathRelative base p else p

/-- `resolveRelativePath` from `src/service/utils.ts` (`path.resolve`). -/
def resolveRelativePath (base p : String) : String :=
  if isAbsolutePath p then p else base ++ "/" ++ p

/-- `getAbsolutePath` from `src/service/utils.ts`. -/
def getAbsolutePath (base p : String) : String :=
  if isAbsolutePath p then p else resolveRelativePath base p

/-- `getFileNameFromPath` from `src/service/utils.ts`. -/
def getFileNameFromPath (p : String) : String := basename p

/-- JavaScript `a || b` on optional strings: the empty string is falsy. -/
def jsOrString (a b : Option String) : Option String :=
  match a with
  | some s => if s = "" then b else some s
  | none => b

/-! ## Data model of the loader (`src/api/types.ts`)

`PlaceholderFile` is embedded flat (`fileName`, `filePath`, `url`,
`isPreloaded`): the loader never reads or writes the nested `imports` and
`missing` fields of an import entry, and the `missingImports` entries it
constructs carry only `fileName` and `filePath`.
-/

structure PlaceholderFile where
  fileName : String
  filePath : String
  url : Option String := none
  isPreloaded : Option Bool := none
  deriving Repr, DecidableEq

structure FileWithImports where
  fileName : String
  filePath : String
  imports : Option (List PlaceholderFile) := none
  missing : Option (List PlaceholderFile) := none
  deriving Repr, DecidableEq

/-- `LoadProtoStatus` from `src/service/utils.ts` (`ok = 1`, `fail = -1`,
`part = 0`). -/
inductive LoadProtoStatus where
  | ok
  | fail
  | part
  deriving Repr, DecidableEq

/-- The slice of a parsed `Proto` object the loader manipulates: its
`fileName` and `filePath` and the fields the loader assigns (`imports`,
`protoDoc`).  The descriptor tree itself is opaque to every claim. -/
structure Proto where
  fileName : String
  filePath : String
  imports : List PlaceholderFile := []
  protoDoc : String := ""
  deriving Repr, DecidableEq

/-- `ProtoFile` as built at the end of `loadProtosFromFile`; the walk of the
descriptor tree (`parseServices`) is not modelled, no claim touches it. -/
structure ProtoFile where
  proto : Proto
  fileName : String
  deriving Repr, DecidableEq

structure LoadProtoResult where
  protos : List ProtoFile
  missingImports : List FileWithImports
  status : LoadProtoStatus
  deriving Repr, DecidableEq

/-- Outcome of one `fromFileName` descriptor-parser invocation, an input of
the embedded loader.  A `failure` carries the `errno` of the thrown error,
its optional `path` field, and the process `warning` emitted during the
parse, if any: `some m` means the handler ran with `m` the optional capture
of the `not found in any of the include paths` pattern. -/
inductive ParseOutcome where
  | success (proto : Proto)
  | failure (errno : Int) (errPath : Option String) (warningMatch : Option (Option String))
  deriving Repr, DecidableEq

/-! ## lodash `uniqBy` keyed on `filePath`, and the JS `Map` -/

/-- Fuel-indexed helper for `uniqByKey`; the fuel dominates the list length,
so the recursion is structural and computes by `rfl`. -/
def uniqByKeyF (key : α → String) : Nat → List α → List α
  | _, [] => []
  | 0, _ :: _ => []
  | n + 1, x :: xs => x :: uniqByKeyF key n (xs.filter (fun y => key y != key x))

/-- lodash `uniqBy key`: keeps the first element for every key, in order. -/
def uniqByKey (key : α → String) (l : List α) : List α :=
  uniqByKeyF key l.length l

theorem uniqByKeyF_nil (key : α → String) (n : Nat) :
    uniqByKeyF key n ([] : List α) = [] := by
  cases n <;> rfl

theorem uniqByKeyF_congr (key : α → String) :
    ∀ (n m : Nat) (l : List α), l.length ≤ n → l.length ≤ m →
      uniqByKeyF key n l = uniqByKeyF key m l := by
  intro n
  induction n with
  | zero =>
    intro m l hn _
    have hl : l = [] := List.eq_nil_of_length_eq_zero (Nat.le_zero.mp hn)
    subst hl
    rw [uniqByKeyF_nil, uniqByKeyF_nil]
  | succ n ih =>
    intro m l hn hm
    match l, m with
    | [], m => rw [uniqByKeyF_nil, uniqByKeyF_nil]
    | x :: xs, m + 1 =>
      simp only [uniqByKeyF]
      have hle := List.length_filter_le (fun y => key y != key x) xs
      exact congrArg _ (ih m _ (le_trans hle (Nat.le_of_succ_le_succ hn))
        (le_trans hle (Nat.le_of_succ_le_succ hm)))

theorem uniqByKey_nil (key : α → String) : uniqByKey key [] = [] := rfl

theorem uniqByKey_cons (key : α → String) (x : α) (xs : List α) :
    uniqByKey key (x :: xs) =
      x :: uniqByKey key (xs.filter (fun y => key y != key x)) := by
  simp only [uniqByKey, List.length_cons, uniqByKeyF]
  exact congrArg _ (uniqByKeyF_congr key xs.length _ _
    (List.length_filter_le _ _) le_rfl)

def uniqByFilePath (l : List PlaceholderFile) : List PlaceholderFile :=
  uniqByKey PlaceholderFile.filePath l

/-- JS `Map` as an insertion-ordered association list. -/
def mapHas (m : List (String × α)) (k : String) : Bool := m.any (fun kv => kv.1 == k)

def mapGet (m : List (String × α)) (k : String) : Option α :=
  (m.find? (fun kv => kv.1 == k)).map (fun kv => kv.2)

/-- JS `Map.set`: overwrites in place when the key exists (keeping its
insertion position), appends otherwise. -/
def mapSet (m : List (String × α)) (k : String) (v : α) : List (String × α) :=
  if mapHas m k then m.map (fun kv => if kv.1 == k then (k, v) else kv)
  else m ++ [(k, v)]

/-! ## The loader (`loadProtosFromFile` in the proto-loading module)

The loop is embedded as a fold over the batch.  Mutable state of the source
loop: the `protos` array, the `missingMap`, `result.status`, and the
`capturedFromWarning` variable (set by the `process.on('warning')` handler
and never reset between files).
-/

structure LoaderState where
  protos : List Proto
  missingMap : List (String × FileWithImports)
  status : LoadProtoStatus
  capturedFromWarning : Option String

/-- One iteration of the `for (const protoFile of protoFiles)` loop. -/
def processAttempt (basePath : String) (st : LoaderState)
    (att : FileWithImports × ParseOutcome) : LoaderState :=
  let protoFile := att.1
  let relativeImports := uniqByFilePath
    ((protoFile.imports.getD []).map
      (fun f => { f with filePath := getRelativePath basePath f.filePath }))
  match att.2 with
  | .success proto =>
      let proto := { proto with
        protoDoc := ""
        filePath := getRelativePath basePath proto.filePath
        imports := relativeImports }
      { st with protos := st.protos ++ [proto] }
  | .failure errno errPath warningMatch =>
      let captured := match warningMatch with
        | none => st.capturedFromWarning
        | some m => some (m.getD "")
      if errno = -2 then
        let capturedMissing := jsOrString captured errPath
        let missingList : List PlaceholderFile :=
          match capturedMissing with
          | some s =>
              if s ≠ "" then
                [{ fileName := getFileNameFromPath s
                   filePath := getRelativePath basePath s }]
              else []
          | none => []
        let relativeFilePath := getRelativePath basePath protoFile.filePath
        let missingMap :=
          if mapHas st.missingMap relativeFilePath then
            let current := (mapGet st.missingMap relativeFilePath).getD
              { fileName := "", filePath := "" }
            mapSet st.missingMap relativeFilePath
              { current with
                imports := some (uniqByFilePath ((current.imports.getD []) ++ relativeImports)) }
          else
            mapSet st.missingMap relativeFilePath
              { filePath := relativeFilePath
                fileName := getFileNameFromPath protoFile.filePath
                missing := some missingList
                imports := some relativeImports }
        { st with
          missingMap := missingMap
          status := .part
          capturedFromWarning := captured }
      else
        { st with status := .fail, capturedFromWarning := captured }

/-- `loadProtosFromFile`: each batch entry is paired with the outcome of its
descriptor-parser invocation.  `genDocConfig` is absent (`protoDoc` stays
empty), as at every call site relevant to the claims. -/
def loadProtosFromFile (basePath : String)
    (attempts : List (FileWithImports × ParseOutcome)) : LoadProtoResult :=
  let final := attempts.foldl (processAttempt basePath)
    { protos := [], missingMap := [], status := .ok, capturedFromWarning := none }
  let protoList := final.protos.map (fun proto =>
    { proto := proto
      fileName := (((proto.fileName.splitOn "/").getLast?).getD "") } )
  { protos := protoList
    missingImports := final.missingMap.map (fun kv => kv.2)
    status := final.status }

/-- Status contributed by one attempt: `none` for a successful parse,
`part` for an errno -2 failure (missing import), `fail` otherwise. -/
def attemptStatus : ParseOutcome → Option LoadProtoStatus
  | .success _ => none
  | .failure errno _ _ => some (if errno = -2 then .part else .fail)

/-! ### Algebra of `uniqByKey` -/

theorem uniqByKey_filter_comm_aux (key : α → String) :
    ∀ (n : Nat) (l : List α), l.length ≤ n → ∀ (c : String),
      uniqByKey key (l.filter (fun y => key y != c)) =
        (uniqByKey key l).filter (fun y => key y != c) := by
  intro n
  induction n with
  | zero =>
    intro l hl c
    have : l = [] := List.eq_nil_of_length_eq_zero (Nat.le_zero.mp hl)
    subst this
    rfl
  | succ n ih =>
    intro l hl c
    match l with
    | [] => rfl
    | x :: xs =>
      have hxs : xs.length ≤ n := Nat.le_of_succ_le_succ hl
      by_cases hx : key x = c
      · have hpx : (key x != c) = false := by simp [hx]
        rw [List.filter_cons_of_neg (by simp [hpx]), uniqByKey_cons,
          List.filter_cons_of_neg (by simp [hpx]),
          ← ih _ (le_trans (List.length_filter_le _ _) hxs) c]
        congr 1
        rw [List.filter_filter]
        apply List.filter_congr
        intro a _
        simp [hx]
      · have hpx : (key x != c) = true := by simp [hx]
        rw [List.filter_cons_of_pos (by simp [hpx]), uniqByKey_cons,
          uniqByKey_cons, List.filter_cons_of_pos (by simp [hpx]),
          ← ih _ (le_trans (List.length_filter_le _ _) hxs) c]
        congr 1
        rw [List.filter_filter, List.filter_filter]
        exact congrArg _ (List.filter_congr (fun a _ => Bool.and_comm _ _))

theorem uniqByKey_filter_comm (key : α → String) (l : List α) (c : String) :
    uniqByKey key (l.filter (fun y => key y != c)) =
      (uniqByKey key l).filter (fun y => key y != c) :=
  uniqByKey_filter_comm_aux key l.length l le_rfl c

theorem filter_self_idem (p : α → Bool) (l : List α) :
    (l.filter p).filter p = l.filter p := by
  rw [List.filter_filter]
  apply List.filter_congr
  intro a _
  exact Bool.and_self _

theorem uniqByKey_idem_aux (key : α → String) :
    ∀ (n : Nat) (l : List α), l.length ≤ n →
      uniqByKey key (uniqByKey key l) = uniqByKey key l := by
  intro n
  induction n with
  | zero =>
    intro l hl
    have : l = [] := List.eq_nil_of_length_eq_zero (Nat.le_zero.mp hl)
    subst this
    rfl
  | succ n ih =>
    intro l hl
    match l with
    | [] => rfl
    | x :: xs =>
      have hxs : xs.length ≤ n := Nat.le_of_succ_le_succ hl
      rw [uniqByKey_cons, uniqByKey_cons,
        ← uniqByKey_filter_comm, filter_self_idem,
        ih _ (le_trans (List.length_filter_le _ _) hxs)]

theorem uniqByKey_idem (key : α → String) (l : List α) :
    uniqByKey key (uniqByKey key l) = uniqByKey key l :=
  uniqByKey_idem_aux key l.length l le_rfl

theorem uniqByKey_append_uniqByKey_aux (key : α → String) :
    ∀ (n : Nat) (a : List α), a.length ≤ n → ∀ (b : List α),
      uniqByKey key (uniqByKey key a ++ uniqByKey key b) =
        uniqByKey key (a ++ b) := by
  intro n
  induction n with
  | zero =>
    intro a ha b
    have : a = [] := List.eq_nil_of_length_eq_zero (Nat.le_zero.mp ha)
    subst this
    simpa using uniqByKey_idem key b
  | succ n ih =>
    intro a ha b
    match a with
    | [] => simpa using uniqByKey_idem key b
    | x :: xs =>
      have hxs : xs.length ≤ n := Nat.le_of_succ_le_succ ha
      rw [uniqByKey_cons, List.cons_append, uniqByKey_cons, List.filter_append,
        ← uniqByKey_filter_comm, ← uniqByKey_filter_comm, filter_self_idem,
        ih _ (le_trans (List.length_filter_le _ _) hxs),
        ← List.filter_append, List.cons_append, uniqByKey_cons]

/-- Merging two already-deduplicated lists and deduplicating again equals
deduplicating the plain concatenation. -/
theorem uniqByKey_append_uniqByKey (key : α → String) (a b : List α) :
    uniqByKey key (uniqByKey key a ++ uniqByKey key b) =
      uniqByKey key (a ++ b) :=
  uniqByKey_append_uniqByKey_aux key a.length a le_rfl b

theorem uniqByKey_append_right_aux (key : α → String) :
    ∀ (n : Nat) (a : List α), a.length ≤ n → ∀ (b : List α),
      uniqByKey key (a ++ uniqByKey key b) = uniqByKey key (a ++ b) := by
  intro n
  induction n with
  | zero =>
    intro a ha b
    have : a = [] := List.eq_nil_of_length_eq_zero (Nat.le_zero.mp ha)
    subst this
    simpa using uniqByKey_idem key b
  | succ n ih =>
    intro a ha b
    match a with
    | [] => simpa using uniqByKey_idem key b
    | x :: xs =>
      have hxs : xs.length ≤ n := Nat.le_of_succ_le_succ ha
      rw [List.cons_append, uniqByKey_cons, List.filter_append,
        ← uniqByKey_filter_comm,
        ih _ (le_trans (List.length_filter_le _ _) hxs),
        ← List.filter_append, List.cons_append, uniqByKey_cons]

/-- Deduplicating the right summand first changes nothing. -/
theorem uniqByKey_append_right (key : α → String) (a b : List α) :
    uniqByKey key (a ++ uniqByKey key b) = uniqByKey key (a ++ b) :=
  uniqByKey_append_right_aux key a.length a le_rfl b

/-- Deduplicating the left summand first changes nothing. -/
theorem uniqByKey_append_left (key : α → String) (a b : List α) :
    uniqByKey key (uniqByKey key a ++ b) = uniqByKey key (a ++ b) :=
  (uniqByKey_append_right key (uniqByKey key a) b).symm.trans
    (uniqByKey_append_uniqByKey key a b)

/-! ### Status of a loading batch -/

theorem processAttempt_status (basePath : String) (st : LoaderState)
    (a : FileWithImports × ParseOutcome) :
    (processAttempt basePath st a).status = (attemptStatus a.2).getD st.status := by
  obtain ⟨f, o⟩ := a
  cases o with
  | success p => rfl
  | failure errno ep w =>
    by_cases h : errno = -2 <;>
      simp [processAttempt, attemptStatus, h]

theorem getLast?_cons_getD : ∀ (l : List α) (x d : α),
    ((x :: l).getLast?).getD d = (l.getLast?).getD x := by
  intro l
  induction l with
  | nil => intro x d; rfl
  | cons y ys ih =>
    intro x d
    rw [List.getLast?_cons_cons, ih y d, ih y x]

theorem foldl_processAttempt_status (basePath : String) :
    ∀ (attempts : List (FileWithImports × ParseOutcome)) (st : LoaderState),
      (attempts.foldl (processAttempt basePath) st).status =
        ((attempts.filterMap (fun a => attemptStatus a.2)).getLast?).getD st.status := by
  intro attempts
  induction attempts with
  | nil => intro st; rfl
  | cons a rest ih =>
    intro st
    rw [List.foldl_cons, List.filterMap_cons, ih]
    cases h : attemptStatus a.2 with
    | none => rw [processAttempt_status, h]; rfl
    | some s => rw [processAttempt_status, h, getLast?_cons_getD]; rfl

/-- The resulting status of a batch is the classification of the LAST
failing attempt in batch order (defaulting to ok for a clean batch): each
failure overwrites `result.status` unconditionally. -/
theorem loadProtosFromFile_status (basePath : String)
    (attempts : List (FileWithImports × ParseOutcome)) :
    (loadProtosFromFile basePath attempts).status =
      ((attempts.filterMap (fun a => attemptStatus a.2)).getLast?).getD .ok := by
  simp only [loadProtosFromFile]
  exact foldl_processAttempt_status basePath attempts _

theorem attemptStatus_ne_ok (o : ParseOutcome) : attemptStatus o ≠ some .ok := by
  cases o with
  | success p => simp [attemptStatus]
  | failure errno ep w =>
    by_cases h : errno = -2 <;> simp [attemptStatus, h]

/-- C1 (counterexample): a batch whose FAIL outcome (errno 1, not a missing
import) precedes its PARTIAL outcome (errno -2) reports status `part`, not
`fail`: the claimed order independence is false. -/
theorem loadProtosFromFile_fail_then_part_is_part :
    (loadProtosFromFile "/base"
      [({ fileName := "a.proto", filePath := "a.proto" }, .failure 1 none none),
       ({ fileName := "b.proto", filePath := "b.proto" }, .failure (-2) none none)]).status
      = .part ∧ LoadProtoStatus.part ≠ LoadProtoStatus.fail := by
  constructor
  · rfl
  · decide

/-- C1 (amended): in a batch with exactly one FAIL outcome and one PARTIAL
outcome (all other files parse cleanly), the resulting status is the
classification of the LATER of the two failing files; each failure
overwrites the batch status, so FAIL wins only when it comes second. -/
theorem loadProtosFromFile_fail_part_last_wins (basePath : String)
    (pre mid post : List (FileWithImports × ParseOutcome))
    (a b : FileWithImports × ParseOutcome)
    (hpre : ∀ x ∈ pre, attemptStatus x.2 = none)
    (hmid : ∀ x ∈ mid, attemptStatus x.2 = none)
    (hpost : ∀ x ∈ post, attemptStatus x.2 = none)
    (hab : (attemptStatus a.2 = some .fail ∧ attemptStatus b.2 = some .part) ∨
           (attemptStatus a.2 = some .part ∧ attemptStatus b.2 = some .fail)) :
    (loadProtosFromFile basePath (pre ++ a :: (mid ++ b :: post))).status =
      (attemptStatus b.2).getD .ok := by
  rw [loadProtosFromFile_status]
  have hpre' : pre.filterMap (fun x => attemptStatus x.2) = [] :=
    List.filterMap_eq_nil_iff.mpr hpre
  have hmid' : mid.filterMap (fun x => attemptStatus x.2) = [] :=
    List.filterMap_eq_nil_iff.mpr hmid
  have hpost' : post.filterMap (fun x => attemptStatus x.2) = [] :=
    List.filterMap_eq_nil_iff.mpr hpost
  rcases hab with ⟨ha, hb⟩ | ⟨ha, hb⟩ <;>
    simp [List.filterMap_append, List.filterMap_cons, hpre', hmid', hpost', ha, hb]

theorem loadProtosFromFile_fail_part_last_wins_witness :
    (loadProtosFromFile "/base"
      [({ fileName := "b.proto", filePath := "b.proto" }, .failure (-2) none none),
       ({ fileName := "a.proto", filePath := "a.proto" }, .failure 1 none none)]).status
      = .fail := by
  have h := loadProtosFromFile_fail_part_last_wins "/base" [] [] []
    ({ fileName := "b.proto", filePath := "b.proto" }, .failure (-2) none none)
    ({ fileName := "a.proto", filePath := "a.proto" }, .failure 1 none none)
    (by simp) (by simp) (by simp)
    (Or.inr ⟨by decide, by decide⟩)
  simpa using h

/-- C2 (counterexample): a batch consisting of a single file that fails with
a missing import (errno -2) reports status `part` although NO file parsed
successfully, refuting the claimed invariant that `part` requires at least
one successfully parsed file. -/
theorem loadProtosFromFile_part_without_success :
    (loadProtosFromFile "/base"
      [({ fileName := "b.proto", filePath := "b.proto" },
        .failure (-2) (some "/base/x.proto") none)]).status = .part ∧
    (loadProtosFromFile "/base"
      [({ fileName := "b.proto", filePath := "b.proto" },
        .failure (-2) (some "/base/x.proto") none)]).protos = [] := by
  constructor <;> rfl

/-- C2 (amended): the status of a batch is determined by the last failing
file only. It is `ok` iff every file parsed successfully; `part` iff at
least one file failed and the last failure was of the missing-import class
(errno -2); `fail` iff the last failure was of any other class. Whether
some file parsed successfully is irrelevant. -/
theorem loadProtosFromFile_status_iff (basePath : String)
    (attempts : List (FileWithImports × ParseOutcome)) :
    ((loadProtosFromFile basePath attempts).status = .ok ↔
      ∀ a ∈ attempts, attemptStatus a.2 = none) ∧
    ((loadProtosFromFile basePath attempts).status = .part ↔
      ((attempts.filterMap (fun a => attemptStatus a.2)).getLast?) = some .part) ∧
    ((loadProtosFromFile basePath attempts).status = .fail ↔
      ((attempts.filterMap (fun a => attemptStatus a.2)).getLast?) = some .fail) := by
  rw [loadProtosFromFile_status]
  cases hl : (attempts.filterMap (fun a => attemptStatus a.2)).getLast? with
  | none =>
    have hnil := List.getLast?_eq_none_iff.mp hl
    simp only [Option.getD_none]
    refine ⟨⟨fun _ => List.filterMap_eq_nil_iff.mp hnil, fun _ => by simp⟩, ?_, ?_⟩ <;>
      simp
  | some s =>
    have hmem : s ∈ attempts.filterMap (fun a => attemptStatus a.2) :=
      List.mem_of_getLast?_eq_some hl
    obtain ⟨a, _, ha⟩ := List.mem_filterMap.mp hmem
    have hsne : s ≠ .ok := fun h => attemptStatus_ne_ok a.2 (h ▸ ha)
    simp only [Option.getD_some]
    refine ⟨⟨fun h => absurd h hsne, fun h => ?_⟩, by cases s <;> simp_all, by cases s <;> simp_all⟩
    have : attempts.filterMap (fun x => attemptStatus x.2) = [] :=
      List.filterMap_eq_nil_iff.mpr h
    rw [this] at hl
    exact absurd hl (by simp)

/-! ### Accumulation of missing-import entries

General characterization, over an arbitrary batch, of the `missingMap`
entry for an arbitrary file key.
-/

/-- The attempts of a batch that hit the missing-import branch (errno -2)
for the file whose relative path is `key`. -/
def isMissingAttempt (basePath key : String)
    (a : FileWithImports × ParseOutcome) : Bool :=
  (getRelativePath basePath a.1.filePath == key) &&
    (match a.2 with
     | .failure errno _ _ => errno == -2
     | .success _ => false)

/-- The relativized known-import list of one attempt (before dedup). -/
def relImports (basePath : String) (a : FileWithImports × ParseOutcome) :
    List PlaceholderFile :=
  (a.1.imports.getD []).map
    (fun f => { f with filePath := getRelativePath basePath f.filePath })

/-- Concatenation of the relativized import lists of a list of attempts. -/
def accImports (basePath : String)
    (l : List (FileWithImports × ParseOutcome)) : List PlaceholderFile :=
  (l.map (relImports basePath)).flatten

theorem mapGet_cons {α : Type} (x : String × α) (rest : List (String × α))
    (k : String) :
    mapGet (x :: rest) k =
      if (x.1 == k) = true then some x.2 else mapGet rest k := by
  rw [mapGet, List.find?_cons]
  by_cases h : (x.1 == k) = true
  · simp [h]
  · simp [h, mapGet]

theorem mapGet_none_of_mapHas_false {α : Type} (m : List (String × α))
    (k : String) (h : mapHas m k = false) : mapGet m k = none := by
  have hf : m.find? (fun kv => kv.1 == k) = none := by
    rw [List.find?_eq_none]
    intro x hx hpx
    have htrue : mapHas m k = true := by
      rw [mapHas]
      exact List.any_eq_true.mpr ⟨x, hx, hpx⟩
    rw [h] at htrue
    cases htrue
  rw [mapGet, hf]
  rfl

theorem mapGet_isSome_of_mapHas {α : Type} (m : List (String × α))
    (k : String) (h : mapHas m k = true) : ∃ v, mapGet m k = some v := by
  rw [mapHas, List.any_eq_true] at h
  obtain ⟨x, hx, hpx⟩ := h
  have hs : (m.find? (fun kv => kv.1 == k)).isSome :=
    List.find?_isSome.mpr ⟨x, hx, hpx⟩
  obtain ⟨y, hy⟩ := Option.isSome_iff_exists.mp hs
  exact ⟨y.2, by rw [mapGet, hy]; rfl⟩

theorem mapGet_map_self {α : Type} (m : List (String × α)) (k : String)
    (v : α) (hhas : mapHas m k = true) :
    mapGet (m.map (fun kv => if kv.1 == k then (k, v) else kv)) k = some v := by
  induction m with
  | nil => cases hhas
  | cons x rest ih =>
    rw [List.map_cons]
    by_cases h1 : (x.1 == k) = true
    · rw [if_pos h1, mapGet_cons]
      simp
    · rw [if_neg h1, mapGet_cons, if_neg h1]
      apply ih
      have h2 := hhas
      rw [mapHas, List.any_cons] at h2
      have h1f : (x.1 == k) = false := Bool.eq_false_iff.mpr h1
      rw [h1f, Bool.false_or] at h2
      rw [mapHas]
      exact h2

theorem mapGet_append_self {α : Type} (m : List (String × α)) (k : String)
    (v : α) (hno : mapHas m k = false) :
    mapGet (m ++ [(k, v)]) k = some v := by
  have hf : m.find? (fun kv => kv.1 == k) = none := by
    rw [List.find?_eq_none]
    intro x hx hpx
    have htrue : mapHas m k = true := by
      rw [mapHas]
      exact List.any_eq_true.mpr ⟨x, hx, hpx⟩
    rw [hno] at htrue
    cases htrue
  rw [mapGet, List.find?_append, hf]
  simp

theorem mapGet_mapSet_self {α : Type} (m : List (String × α)) (k : String)
    (v : α) : mapGet (mapSet m k v) k = some v := by
  rw [mapSet]
  by_cases hhas : mapHas m k = true
  · rw [if_pos hhas]
    exact mapGet_map_self m k v hhas
  · rw [if_neg hhas]
    exact mapGet_append_self m k v (Bool.eq_false_iff.mpr hhas)

theorem mapGet_map_ne {α : Type} (m : List (String × α)) (k1 k2 : String)
    (v : α) (hne : (k1 == k2) = false) :
    mapGet (m.map (fun kv => if kv.1 == k1 then (k1, v) else kv)) k2 =
      mapGet m k2 := by
  induction m with
  | nil => rfl
  | cons x rest ih =>
    rw [List.map_cons]
    by_cases h1 : (x.1 == k1) = true
    · have hx1 : x.1 = k1 := by simpa using h1
      rw [if_pos h1, mapGet_cons, mapGet_cons, if_neg (by simp [hne]),
        if_neg (by simp [hx1, hne]), ih]
    · rw [if_neg h1, mapGet_cons, mapGet_cons]
      by_cases h2 : (x.1 == k2) = true
      · rw [if_pos h2, if_pos h2]
      · rw [if_neg h2, if_neg h2, ih]

theorem mapGet_mapSet_ne {α : Type} (m : List (String × α)) (k1 k2 : String)
    (v : α) (hne : (k1 == k2) = false) :
    mapGet (mapSet m k1 v) k2 = mapGet m k2 := by
  rw [mapSet]
  by_cases hhas : mapHas m k1 = true
  · rw [if_pos hhas]
    exact mapGet_map_ne m k1 k2 v hne
  · rw [if_neg hhas, mapGet, List.find?_append]
    have h2 : List.find? (fun kv => kv.1 == k2) [(k1, v)] = none := by
      simp [hne]
    rw [h2, Option.or_none]
    rfl

/-- Replacing the value at a key leaves the key sequence unchanged. -/
theorem mapSet_replace_keys {α : Type} (m : List (String × α)) (k : String)
    (v : α) :
    (m.map (fun kv => if kv.1 == k then (k, v) else kv)).map Prod.fst =
      m.map Prod.fst := by
  rw [List.map_map]
  apply List.map_congr_left
  intro kv2 _
  by_cases hk : (kv2.1 == k) = true
  · have hkey : kv2.1 = k := by simpa using hk
    simp [hk, Function.comp, hkey]
  · simp [hk, Function.comp]

/-- Well-formedness of the `missingMap`: every value carries its key as
`filePath`, and keys are distinct (JS `Map` semantics). -/
def mapWellKeyed (m : List (String × FileWithImports)) : Prop :=
  (∀ kv ∈ m, kv.2.filePath = kv.1) ∧ (m.map Prod.fst).Nodup

theorem values_filter_key :
    ∀ (m : List (String × FileWithImports)), mapWellKeyed m →
      ∀ (k : String) (e : FileWithImports), mapGet m k = some e →
        (m.map (fun kv => kv.2)).filter (fun x => x.filePath == k) = [e] := by
  intro m
  induction m with
  | nil =>
    intro _ k e h
    rw [mapGet] at h
    cases h
  | cons kv rest ih =>
    intro hwk k e h
    have hwk1 : kv.2.filePath = kv.1 := hwk.1 kv (by simp)
    have hnodup := hwk.2
    rw [List.map_cons, List.nodup_cons] at hnodup
    have hwkrest : mapWellKeyed rest :=
      ⟨fun x hx => hwk.1 x (by simp [hx]), hnodup.2⟩
    rw [mapGet_cons] at h
    by_cases h1 : (kv.1 == k) = true
    · rw [if_pos h1] at h
      have hk : kv.1 = k := by simpa using h1
      have he : kv.2 = e := by injection h
      rw [List.map_cons, List.filter_cons_of_pos (by rw [hwk1, hk]; simp)]
      have hrest0 :
          (rest.map (fun x => x.2)).filter (fun x => x.filePath == k) = [] := by
        rw [List.filter_eq_nil_iff]
        intro x hx
        obtain ⟨kv2, hkv2, rfl⟩ := List.mem_map.mp hx
        have hfp : kv2.2.filePath = kv2.1 := hwk.1 kv2 (by simp [hkv2])
        intro hpx
        have hk2 : kv2.1 = k := by
          rw [← hfp]
          simpa using hpx
        exact hnodup.1 (hk ▸ hk2 ▸ List.mem_map_of_mem Prod.fst hkv2)
      rw [hrest0, he]
    · rw [if_neg h1] at h
      rw [List.map_cons, List.filter_cons_of_neg (by rw [hwk1]; simpa using h1)]
      exact ih hwkrest k e h

theorem mapWellKeyed_processAttempt (basePath : String) (st : LoaderState)
    (a : FileWithImports × ParseOutcome)
    (h : mapWellKeyed st.missingMap) :
    mapWellKeyed (processAttempt basePath st a).missingMap := by
  obtain ⟨f, o⟩ := a
  cases o with
  | success p => exact h
  | failure errno ep w =>
    by_cases he2 : errno = -2
    · show mapWellKeyed (processAttempt basePath st (f, .failure errno ep w)).missingMap
      simp only [processAttempt, he2, if_pos]
      by_cases hhas : mapHas st.missingMap (getRelativePath basePath f.filePath) = true
      · rw [if_pos hhas]
        obtain ⟨e0, he0⟩ := mapGet_isSome_of_mapHas _ _ hhas
        have he0mem : ∃ kv ∈ st.missingMap,
            kv.1 = getRelativePath basePath f.filePath ∧ kv.2 = e0 := by
          rw [mapGet] at he0
          cases hf : st.missingMap.find? (fun kv =>
              kv.1 == getRelativePath basePath f.filePath) with
          | none => rw [hf] at he0; cases he0
          | some y =>
            rw [hf] at he0
            refine ⟨y, List.mem_of_find?_eq_some hf, ?_, by injection he0⟩
            have := List.find?_some hf
            simpa using this
        obtain ⟨kv0, hkv0mem, hkv0key, hkv0val⟩ := he0mem
        have he0fp : e0.filePath = getRelativePath basePath f.filePath := by
          rw [← hkv0val, h.1 kv0 hkv0mem, hkv0key]
        rw [he0, Option.getD_some, mapSet, if_pos hhas]
        constructor
        · intro kv hkv
          obtain ⟨kv2, hkv2, rfl⟩ := List.mem_map.mp hkv
          by_cases hk : (kv2.1 == getRelativePath basePath f.filePath) = true
          · rw [if_pos hk]
            exact he0fp
          · rw [if_neg hk]
            exact h.1 kv2 hkv2
        · rw [mapSet_replace_keys]
          exact h.2
      · rw [if_neg hhas, mapSet, if_neg hhas]
        constructor
        · intro kv hkv
          rcases List.mem_append.mp hkv with hold | hnew
          · exact h.1 kv hold
          · simp at hnew
            rw [hnew]
        · rw [List.map_append, List.nodup_append]
          refine ⟨h.2, by simp, ?_⟩
          intro x hx hy
          simp at hy
          subst hy
          obtain ⟨kv2, hkv2, hfst⟩ := List.mem_map.mp hx
          have : mapHas st.missingMap (getRelativePath basePath f.filePath) = true := by
            rw [mapHas]
            exact List.any_eq_true.mpr ⟨kv2, hkv2, by simp [hfst]⟩
          exact hhas this
    · show mapWellKeyed (processAttempt basePath st (f, .failure errno ep w)).missingMap
      simp only [processAttempt, he2, if_neg]
      exact h

theorem foldl_mapWellKeyed (basePath : String) :
    ∀ (attempts : List (FileWithImports × ParseOutcome)) (st : LoaderState),
      mapWellKeyed st.missingMap →
      mapWellKeyed ((attempts.foldl (processAttempt basePath) st).missingMap) := by
  intro attempts
  induction attempts with
  | nil => intro st h; exact h
  | cons a rest ih =>
    intro st h
    rw [List.foldl_cons]
    exact ih _ (mapWellKeyed_processAttempt basePath st a h)

/-- The `(filePath, imports)` projection of the key entry of a map. -/
def projKey (key : String) (m : List (String × FileWithImports)) :
    Option (String × Option (List PlaceholderFile)) :=
  (mapGet m key).map (fun e => (e.filePath, e.imports))

/-- How the key entry evolves across the relevant attempts of a batch. -/
def mergeSpec (basePath key : String)
    (prev : Option (String × Option (List PlaceholderFile)))
    (r : List (FileWithImports × ParseOutcome)) :
    Option (String × Option (List PlaceholderFile)) :=
  match prev, r with
  | none, [] => none
  | none, _ :: _ => some (key, some (uniqByFilePath (accImports basePath r)))
  | some (fp, imps), [] => some (fp, imps)
  | some (fp, imps), _ :: _ =>
      some (fp, some (uniqByFilePath (imps.getD [] ++ accImports basePath r)))

theorem mergeSpec_cons_none (basePath key : String)
    (a : FileWithImports × ParseOutcome)
    (r : List (FileWithImports × ParseOutcome)) :
    mergeSpec basePath key
        (some (key, some (uniqByFilePath (relImports basePath a)))) r =
      mergeSpec basePath key none (a :: r) := by
  cases r with
  | nil => simp [mergeSpec, accImports]
  | cons x xs =>
    simp only [mergeSpec, Option.getD_some, accImports, List.map_cons,
      List.flatten_cons, uniqByFilePath]
    rw [uniqByKey_append_left]

theorem mergeSpec_cons_some (basePath key fp : String)
    (impsOpt : Option (List PlaceholderFile))
    (a : FileWithImports × ParseOutcome)
    (r : List (FileWithImports × ParseOutcome)) :
    mergeSpec basePath key
        (some (fp, some (uniqByFilePath (impsOpt.getD [] ++ relImports basePath a)))) r =
      mergeSpec basePath key (some (fp, impsOpt)) (a :: r) := by
  cases r with
  | nil => simp [mergeSpec, accImports]
  | cons x xs =>
    simp only [mergeSpec, Option.getD_some, accImports, List.map_cons,
      List.flatten_cons, uniqByFilePath]
    rw [uniqByKey_append_left, List.append_assoc]

theorem projKey_processAttempt_not_missing (basePath key : String)
    (st : LoaderState) (a : FileWithImports × ParseOutcome)
    (ha : isMissingAttempt basePath key a = false) :
    projKey key (processAttempt basePath st a).missingMap =
      projKey key st.missingMap := by
  obtain ⟨f, o⟩ := a
  cases o with
  | success p => rfl
  | failure errno ep w =>
    by_cases he2 : errno = -2
    · have hne : (getRelativePath basePath f.filePath == key) = false := by
        rw [isMissingAttempt] at ha
        simpa [he2] using ha
      show projKey key (processAttempt basePath st (f, .failure errno ep w)).missingMap =
        projKey key st.missingMap
      simp only [processAttempt]
      rw [if_pos he2]
      by_cases hhas : mapHas st.missingMap (getRelativePath basePath f.filePath) = true
      · rw [if_pos hhas, projKey, mapGet_mapSet_ne _ _ _ _ hne]
        rfl
      · rw [if_neg hhas, projKey, mapGet_mapSet_ne _ _ _ _ hne]
        rfl
    · show projKey key (processAttempt basePath st (f, .failure errno ep w)).missingMap =
        projKey key st.missingMap
      simp only [processAttempt]
      rw [if_neg he2]

theorem projKey_processAttempt_insert (basePath key : String)
    (st : LoaderState) (f : FileWithImports) (errno : Int)
    (ep : Option String) (w : Option (Option String))
    (hkey : getRelativePath basePath f.filePath = key) (he2 : errno = -2)
    (hhas : mapHas st.missingMap key = false) :
    projKey key (processAttempt basePath st (f, .failure errno ep w)).missingMap =
      some (key, some (uniqByFilePath (relImports basePath (f, .failure errno ep w)))) := by
  simp only [processAttempt]
  rw [if_pos he2, hkey, if_neg (by simp [hhas]), projKey, mapGet_mapSet_self]
  rfl

theorem projKey_processAttempt_merge (basePath key : String)
    (st : LoaderState) (f : FileWithImports) (errno : Int)
    (ep : Option String) (w : Option (Option String))
    (hkey : getRelativePath basePath f.filePath = key) (he2 : errno = -2)
    (hhas : mapHas st.missingMap key = true)
    (e0 : FileWithImports) (he0 : mapGet st.missingMap key = some e0) :
    projKey key (processAttempt basePath st (f, .failure errno ep w)).missingMap =
      some (e0.filePath, some (uniqByFilePath
        (e0.imports.getD [] ++ relImports basePath (f, .failure errno ep w)))) := by
  simp only [processAttempt]
  rw [if_pos he2, hkey, if_pos hhas, he0, Option.getD_some, projKey, mapGet_mapSet_self]
  show some (e0.filePath, some (uniqByFilePath (e0.imports.getD [] ++
    uniqByFilePath (relImports basePath (f, .failure errno ep w))))) = _
  rw [show uniqByFilePath (e0.imports.getD [] ++
      uniqByFilePath (relImports basePath (f, .failure errno ep w))) =
    uniqByFilePath (e0.imports.getD [] ++
      relImports basePath (f, .failure errno ep w)) from
    uniqByKey_append_right _ _ _]

/-- How the key entry of the `missingMap` evolves over a whole batch:
starting from any state, it is the `mergeSpec` fold of the relevant
(missing-import, same relative path) attempts. -/
theorem foldl_processAttempt_missingMap (basePath key : String) :
    ∀ (attempts : List (FileWithImports × ParseOutcome)) (st : LoaderState),
      projKey key ((attempts.foldl (processAttempt basePath) st).missingMap) =
        mergeSpec basePath key (projKey key st.missingMap)
          (attempts.filter (isMissingAttempt basePath key)) := by
  intro attempts
  induction attempts with
  | nil =>
    intro st
    show projKey key st.missingMap =
      mergeSpec basePath key (projKey key st.missingMap) []
    cases hp : projKey key st.missingMap with
    | none => rfl
    | some pr =>
      obtain ⟨fp, imps⟩ := pr
      rfl
  | cons a rest ih =>
    intro st
    rw [List.foldl_cons, List.filter_cons, ih]
    by_cases ha : isMissingAttempt basePath key a = true
    · rw [if_pos ha]
      obtain ⟨f, o⟩ := a
      cases o with
      | success p => simp [isMissingAttempt] at ha
      | failure errno ep w =>
        have hconj := ha
        rw [isMissingAttempt, Bool.and_eq_true] at hconj
        have hkey : getRelativePath basePath f.filePath = key := by
          simpa using hconj.1
        have he2 : errno = -2 := by
          simpa using hconj.2
        by_cases hhas : mapHas st.missingMap key = true
        · obtain ⟨e0, he0⟩ := mapGet_isSome_of_mapHas _ _ hhas
          rw [projKey_processAttempt_merge basePath key st f errno ep w hkey he2 hhas e0 he0]
          have hst : projKey key st.missingMap = some (e0.filePath, e0.imports) := by
            rw [projKey, he0]
            rfl
          rw [hst, mergeSpec_cons_some]
        · have hhasF : mapHas st.missingMap key = false := Bool.eq_false_iff.mpr hhas
          rw [projKey_processAttempt_insert basePath key st f errno ep w hkey he2 hhasF]
          have hst : projKey key st.missingMap = none := by
            rw [projKey, mapGet_none_of_mapHas_false _ _ hhasF]
            rfl
          rw [hst, mergeSpec_cons_none]
    · rw [if_neg ha,
        projKey_processAttempt_not_missing basePath key st a (Bool.eq_false_iff.mpr ha)]

/-- The initial loader state of `loadProtosFromFile`. -/
def initialLoaderState : LoaderState :=
  { protos := [], missingMap := [], status := .ok, capturedFromWarning := none }

/-- C6: in every batch in which a file (identified by its relative path
`key`) fails with a missing import at least once — in particular more than
once, with other files freely interleaved — the result holds exactly one
`missingImports` entry keyed by that relative path, and its `imports`
list is the deduplicated (by `filePath`) union, in order, of the
relativized known-import lists of all those failing attempts. -/
theorem loadProtosFromFile_missing_accumulation (basePath key : String)
    (attempts : List (FileWithImports × ParseOutcome))
    (hrel : attempts.filter (isMissingAttempt basePath key) ≠ []) :
    (((loadProtosFromFile basePath attempts).missingImports.filter
        (fun e => e.filePath == key)).map (fun e => (e.filePath, e.imports))) =
      [(key, some (uniqByFilePath
        (accImports basePath (attempts.filter (isMissingAttempt basePath key)))))] := by
  have hfold := foldl_processAttempt_missingMap basePath key attempts initialLoaderState
  have hinit : projKey key initialLoaderState.missingMap = none := rfl
  rw [hinit] at hfold
  obtain ⟨r, rs, hr⟩ : ∃ x xs,
      attempts.filter (isMissingAttempt basePath key) = x :: xs := by
    cases hc : attempts.filter (isMissingAttempt basePath key) with
    | nil => exact absurd hc hrel
    | cons x xs => exact ⟨x, xs, rfl⟩
  rw [hr] at hfold
  rw [projKey] at hfold
  cases hg : mapGet ((attempts.foldl (processAttempt basePath)
      initialLoaderState).missingMap) key with
  | none =>
    rw [hg] at hfold
    simp [mergeSpec] at hfold
  | some e =>
    rw [hg] at hfold
    simp only [mergeSpec] at hfold
    have hpair : (e.filePath, e.imports) =
        (key, some (uniqByFilePath (accImports basePath (r :: rs)))) := by
      have := hfold
      simp only [Option.map] at this
      exact Option.some.inj this
    have hfp : e.filePath = key := congrArg Prod.fst hpair
    have himps : e.imports = some (uniqByFilePath (accImports basePath (r :: rs))) :=
      congrArg Prod.snd hpair
    have hwk : mapWellKeyed ((attempts.foldl (processAttempt basePath)
        initialLoaderState).missingMap) := by
      apply foldl_mapWellKeyed basePath attempts
      constructor
      · intro kv hkv
        cases hkv
      · simp [initialLoaderState]
    have hfil := values_filter_key _ hwk key e hg
    show ((((attempts.foldl (processAttempt basePath)
        initialLoaderState).missingMap.map (fun kv => kv.2)).filter
        (fun x => x.filePath == key)).map (fun e => (e.filePath, e.imports))) =
      [(key, some (uniqByFilePath
        (accImports basePath (attempts.filter (isMissingAttempt basePath key)))))]
    rw [hfil, hr, List.map_cons, List.map_nil, hfp, himps]

/-- A batch in which `b.proto` fails with a missing import twice with
different known-import lists, interleaved with a successful file and a
failing other file. -/
def accumulationWitnessBatch : List (FileWithImports × ParseOutcome) :=
  [({ fileName := "b.proto", filePath := "b.proto",
      imports := some [{ fileName := "x.proto", filePath := "x.proto" }] },
    .failure (-2) none none),
   ({ fileName := "a.proto", filePath := "a.proto" },
    .success { fileName := "a.proto", filePath := "a.proto" }),
   ({ fileName := "c.proto", filePath := "c.proto" },
    .failure (-2) none none),
   ({ fileName := "b.proto", filePath := "b.proto",
      imports := some [{ fileName := "x.proto", filePath := "x.proto" },
        { fileName := "y.proto", filePath := "y.proto" }] },
    .failure (-2) none none)]

theorem loadProtosFromFile_missing_accumulation_witness :
    (((loadProtosFromFile "/base" accumulationWitnessBatch).missingImports.filter
        (fun e => e.filePath == "b.proto")).map (fun e => (e.filePath, e.imports))) =
      [("b.proto", some (uniqByFilePath (accImports "/base"
        (accumulationWitnessBatch.filter (isMissingAttempt "/base" "b.proto")))))] :=
  loadProtosFromFile_missing_accumulation "/base" "b.proto"
    accumulationWitnessBatch (by decide)

/-! ## `saveProtoTextAsFile` (proto-loading module)

The file system is explicit state: a list of `(path, content)` pairs.
`ensureDirectoryExistence` only creates directories (never an entry at the
file path itself), so it is invisible in this file-level model.
-/

/-- `WritableFile` from `src/api/types.ts` (recursive through `imports`). -/
inductive WritableFile where
  | mk (fileName : String) (filePath : String) (url : Option String)
       (content : Option String) (imports : Option (List WritableFile))
  deriving Repr

/-- The `PlaceholderFile` shape returned by `saveProtoTextAsFile`
(`fileName`, `filePath`, `url` and recursively mapped `imports`). -/
inductive PlaceholderFileTree where
  | mk (fileName : String) (filePath : String) (url : Option String)
       (imports : Option (List PlaceholderFileTree))
  deriving Repr

abbrev FS := List (String × String)

def fsExists (fs : FS) (p : String) : Bool := fs.any (fun e => e.1 == p)

def fsRead (fs : FS) (p : String) : Option String :=
  (fs.find? (fun e => e.1 == p)).map (fun e => e.2)

/-- `fs.writeFileSync`: replaces the entry in place or appends. -/
def fsWrite (fs : FS) (p c : String) : FS :=
  if fsExists fs p then fs.map (fun e => if e.1 == p then (p, c) else e)
  else fs ++ [(p, c)]

mutual

/-- `saveProtoTextAsFile`: writes `file.content` at
`path.resolve(basePath, file.filePath)` only when nothing exists there,
then recursively saves the nested imports. -/
def saveProtoTextAsFile (basePath : String) (file : WritableFile) (fs : FS) :
    PlaceholderFileTree × FS :=
  match file with
  | .mk fileName filePath url content imports =>
    let resolved := resolveRelativePath basePath filePath
    let fs1 := if fsExists fs resolved then fs
      else match content with
        | some c => if c = "" then fs else fsWrite fs resolved c
        | none => fs
    match imports with
    | none => (.mk fileName filePath url none, fs1)
    | some l =>
        let r := saveProtoTextAsFileList basePath l fs1
        (.mk fileName filePath url (some r.1), r.2)

/-- Sequential state threading of `file.imports?.map(...)`. -/
def saveProtoTextAsFileList (basePath : String) (files : List WritableFile)
    (fs : FS) : List PlaceholderFileTree × FS :=
  match files with
  | [] => ([], fs)
  | f :: rest =>
      let r1 := saveProtoTextAsFile basePath f fs
      let r2 := saveProtoTextAsFileList basePath rest r1.2
      (r1.1 :: r2.1, r2.2)

end

theorem fsRead_fsWrite_of_not_exists (fs : FS) (q d p : String) (c : String)
    (hq : fsExists fs q = false) (h : fsRead fs p = some c) :
    fsRead (fsWrite fs q d) p = some c := by
  rw [fsWrite, if_neg (by simp [hq])]
  rw [fsRead] at h ⊢
  rw [List.find?_append]
  cases hf : fs.find? (fun e => e.1 == p) with
  | none => rw [hf] at h; exact absurd h (by simp)
  | some e => rw [hf] at h; simp [h, hf]

theorem fsRead_writeStep (fs : FS) (resolved : String) (content : Option String)
    (p c : String) (h : fsRead fs p = some c) :
    fsRead (if fsExists fs resolved = true then fs
      else match content with
        | some d => if d = "" then fs else fsWrite fs resolved d
        | none => fs) p = some c := by
  by_cases hex : fsExists fs resolved = true
  · rwa [if_pos hex]
  · rw [if_neg hex]
    cases content with
    | none => exact h
    | some d =>
      show fsRead (if d = "" then fs else fsWrite fs resolved d) p = some c
      by_cases hd : d = ""
      · rwa [if_pos hd]
      · rw [if_neg hd]
        exact fsRead_fsWrite_of_not_exists fs resolved d p c
          (Bool.eq_false_iff.mpr hex) h

theorem saveProtoTextAsFile_preserves_aux (basePath : String) :
    (∀ (file : WritableFile) (fs : FS), ∀ p c, fsRead fs p = some c →
      fsRead (saveProtoTextAsFile basePath file fs).2 p = some c) ∧
    (∀ (files : List WritableFile) (fs : FS), ∀ p c, fsRead fs p = some c →
      fsRead (saveProtoTextAsFileList basePath files fs).2 p = some c) := by
  refine saveProtoTextAsFile.mutual_induct basePath
    (fun file fs => ∀ p c, fsRead fs p = some c →
      fsRead (saveProtoTextAsFile basePath file fs).2 p = some c)
    (fun files fs => ∀ p c, fsRead fs p = some c →
      fsRead (saveProtoTextAsFileList basePath files fs).2 p = some c)
    ?_ ?_ ?_ ?_
  · intro fs fn fp url content p c h
    simp only [saveProtoTextAsFile]
    exact fsRead_writeStep fs (resolveRelativePath basePath fp) content p c h
  · intro fs fn fp url content resolved fs1 l ih p c h
    simp only [saveProtoTextAsFile]
    exact ih p c (fsRead_writeStep fs (resolveRelativePath basePath fp) content p c h)
  · intro fs p c h
    exact h
  · intro fs f rest r1 ihf ihrest p c h
    simp only [saveProtoTextAsFileList]
    exact ihrest p c (ihf p c h)

/-- C8: an existing file is never overwritten: any path already holding
content before `saveProtoTextAsFile` runs holds the same content
afterwards, including across every recursively processed nested import.
In particular resolving the same placeholder twice leaves the first
written content in place. -/
theorem saveProtoTextAsFile_never_overwrites (basePath : String)
    (file : WritableFile) (fs : FS) (p c : String)
    (h : fsRead fs p = some c) :
    fsRead (saveProtoTextAsFile basePath file fs).2 p = some c :=
  (saveProtoTextAsFile_preserves_aux basePath).1 file fs p c h

theorem saveProtoTextAsFile_never_overwrites_witness :
    fsRead [("/base/a.proto", "first")] "/base/a.proto" = some "first" ∧
    fsRead (saveProtoTextAsFile "/base"
      (.mk "a.proto" "a.proto" none (some "second")
        (some [.mk "a.proto" "a.proto" none (some "third") none]))
      [("/base/a.proto", "first")]).2 "/base/a.proto" = some "first" :=
  ⟨by decide,
   saveProtoTextAsFile_never_overwrites "/base"
    (.mk "a.proto" "a.proto" none (some "second")
      (some [.mk "a.proto" "a.proto" none (some "third") none]))
    [("/base/a.proto", "first")] "/base/a.proto" "first" (by decide)⟩

/-! ## The gRPC invocation engine (`src/api/sendRequest.ts`)

Emitted events are collected into lists; timestamps are milliseconds as
naturals; JSON values, request inputs and responses are one abstract type
parameter `V`, with `JSON.parse` an explicit function `String → Option V`.
-/

/-- The slice of a `ServiceError` the engine inspects: its optional
numeric status code, plus the message. -/
structure ServiceErr where
  code : Option Int := none
  message : String := ""
  deriving Repr, DecidableEq

structure ResponseMetaInformation where
  responseTime : Option ℚ := none
  stream : Option Bool := none
  deriving Repr, DecidableEq

inductive GRPCEvent (V : Type) where
  | DATA (response : V) (meta : ResponseMetaInformation)
  | ERROR (err : ServiceErr) (meta : ResponseMetaInformation)
  | END
  deriving Repr, DecidableEq

/-- `GRPCRequest.responseMetaInformation`. -/
def responseMetaInformation (now : Nat) (startTime : Option Nat)
    (stream : Option Bool) : ResponseMetaInformation :=
  { responseTime := startTime.map (fun st => ((now : ℚ) - (st : ℚ)) / 1000)
    stream := stream }

/-- `GRPCRequest.handleUnaryResponse`: the single terminal callback of a
unary or client-streaming call. -/
def handleUnaryResponse {V : Type} (now : Nat) (requestStartTime : Option Nat)
    (err : Option ServiceErr) (response : V) : List (GRPCEvent V) :=
  let meta := responseMetaInformation now requestStartTime none
  match err with
  | some e => if e.code = some 1 then [] else [.ERROR e meta, .END]
  | none => [.DATA response meta, .END]

/-- The `call.on('data', ...)` handler of `handleServerStreaming`; returns
the emitted events and the updated `streamStartTime`. -/
def handleServerStreamingData {V : Type} (now : Nat)
    (streamStartTime : Option Nat) (data : V) :
    List (GRPCEvent V) × Option Nat :=
  ([.DATA data (responseMetaInformation now streamStartTime (some true))], some now)

/-- The `call.on('error', ...)` handler of `handleServerStreaming`. -/
def handleServerStreamingError (V : Type) (now : Nat)
    (streamStartTime : Option Nat) (err : Option ServiceErr) :
    List (GRPCEvent V) × Option Nat :=
  let meta := responseMetaInformation now streamStartTime (some true)
  let events : List (GRPCEvent V) :=
    match err with
    | some e =>
        if e.code ≠ some 1 then
          .ERROR e meta ::
            (if e.code = some 2 ∨ e.code = some 14 then [.END] else [])
        else []
    | none => []
  (events, some now)

/-- The `call.on('end', ...)` handler of `handleServerStreaming`. -/
def handleServerStreamingEnd (V : Type) : List (GRPCEvent V) := [.END]

/-- The live transport call object (`this._call`): the chunks written to
it and how often its `cancel` method was invoked. -/
structure GRPCCallState (V : Type) where
  written : List V := []
  cancelCalls : Nat := 0
  deriving Repr, DecidableEq

/-- The mutable state of a `GRPCRequest` relevant to `write`/`cancel`:
`_call` is `none` until `send()` assigns it and is never reset. -/
structure GRPCRequestState (V : Type) where
  call : Option (GRPCCallState V) := none
  deriving Repr, DecidableEq

/-- `GRPCRequest.parseRequestInfo`: events it emits, and `some` of the
parsed `(inputs, metadata)` pair, or `none` where the source throws. -/
def parseRequestInfo {V : Type} (parseJson : String → Option V) (emptyV : V)
    (data : String) (userMetadata : Option String) :
    List (GRPCEvent V) × Option (V × V) :=
  match parseJson (if data = "" then "{}" else data) with
  | none =>
      ([.ERROR { message := "Couldn't parse JSON inputs Invalid json" } {}, .END], none)
  | some inputs =>
    match userMetadata with
    | none => ([], some (inputs, emptyV))
    | some um =>
      if um = "" then ([], some (inputs, emptyV))
      else
        match parseJson um with
        | none =>
            ([.ERROR { message := "Couldn't parse JSON metadata Invalid json" } {}, .END], none)
        | some md => ([], some (inputs, md))

/-- `GRPCRequest.write`: no-op without a call handle; otherwise parses the
payload (catching the parse failure) and writes the inputs to the call. -/
def GRPCRequestState.write {V : Type} (req : GRPCRequestState V)
    (parseJson : String → Option V) (emptyV : V) (data : String) :
    List (GRPCEvent V) × GRPCRequestState V :=
  match req.call with
  | none => ([], req)
  | some call =>
    let pr := parseRequestInfo parseJson emptyV data none
    match pr.2 with
    | none => (pr.1, req)
    | some info =>
        (pr.1, { req with call := some { call with written := call.written ++ [info.1] } })

/-- `GRPCRequest.cancel`: guarded only by the existence of `_call`, which
is never cleared; cancels the transport call and emits `END`. -/
def GRPCRequestState.cancel {V : Type} (req : GRPCRequestState V) :
    List (GRPCEvent V) × GRPCRequestState V :=
  match req.call with
  | none => ([], req)
  | some c => ([.END], { req with call := some { c with cancelCalls := c.cancelCalls + 1 } })

/-! ### `GRPCRequest.getClient`: channel credential selection -/

structure CertFile where
  fileName : String := ""
  filePath : String := ""
  deriving Repr, DecidableEq

/-- `Certificate` from `src/api/types.ts`. -/
structure Certificate where
  rootCert : CertFile
  privateKey : Option CertFile := none
  certChain : Option CertFile := none
  sslTargetHost : Option String := none
  useServerCertificate : Option Bool := none
  deriving Repr, DecidableEq

inductive ChannelCredentials where
  | insecure
  | sslDefault
  | ssl (rootCert : String) (privateKey : Option String) (certChain : Option String)
  deriving Repr, DecidableEq

structure ChannelOptions where
  sslTargetNameOverride : Option String := none
  defaultAuthority : Option String := none
  deriving Repr, DecidableEq

structure ClientConfig where
  creds : ChannelCredentials
  options : ChannelOptions
  fileReads : List String
  deriving Repr, DecidableEq

/-- `GRPCRequest.getClient`: `fileContent` is `fs.readFileSync`, and
`fileReads` records which paths were read while building credentials. -/
def getClient (fileContent : String → String)
    (tlsCertificate : Option Certificate) : ClientConfig :=
  match tlsCertificate with
  | none => { creds := .insecure, options := {}, fileReads := [] }
  | some cert =>
    let options : ChannelOptions :=
      match cert.sslTargetHost with
      | some h =>
          if h = "" then {}
          else { sslTargetNameOverride := some h, defaultAuthority := some h }
      | none => {}
    if cert.useServerCertificate = some true then
      { creds := .sslDefault, options := options, fileReads := [] }
    else
      { creds := .ssl (fileContent cert.rootCert.filePath)
          (cert.privateKey.map (fun f => fileContent f.filePath))
          (cert.certChain.map (fun f => fileContent f.filePath))
        options := options
        fileReads := [cert.rootCert.filePath] ++
          (cert.privateKey.map (fun f => f.filePath)).toList ++
          (cert.certChain.map (fun f => f.filePath)).toList }

/-- C3 (counterexample): after `send()` has assigned a call handle, two
consecutive `cancel()` calls emit one `END` each — two `END` events in
total, not one: `_call` is never cleared and no closed state is tracked. -/
theorem cancel_twice_emits_two_ends :
    ((GRPCRequestState.cancel (V := Unit) { call := some {} }).1 ++
      (GRPCRequestState.cancel
        ((GRPCRequestState.cancel (V := Unit) { call := some {} }).2)).1) =
      [.END, .END] ∧
    ([GRPCEvent.END (V := Unit), .END].length ≠ 1) := by
  constructor
  · rfl
  · decide

/-- C3 (amended): `cancel()` is a no-op only while no call handle exists
(before `send()`); once the handle exists, EVERY `cancel()` call — also a
repeated one — cancels the transport call again and emits one further
`END` event, and it never errors. -/
theorem cancel_behavior {V : Type} (req : GRPCRequestState V) :
    (req.call = none → GRPCRequestState.cancel req = ([], req)) ∧
    (∀ c, req.call = some c →
      (GRPCRequestState.cancel req).1 = [.END] ∧
      ((GRPCRequestState.cancel req).2).call.isSome = true ∧
      (GRPCRequestState.cancel ((GRPCRequestState.cancel req).2)).1 = [.END]) := by
  obtain ⟨call⟩ := req
  constructor
  · intro h
    subst h
    rfl
  · intro c hc
    subst hc
    exact ⟨rfl, rfl, rfl⟩

theorem cancel_behavior_witness :
    (GRPCRequestState.cancel (V := Unit) { call := some {} }).1 = [.END] ∧
    ((GRPCRequestState.cancel (V := Unit) { call := some {} }).2).call.isSome = true ∧
    (GRPCRequestState.cancel
      ((GRPCRequestState.cancel (V := Unit) { call := some {} }).2)).1 = [.END] :=
  (cancel_behavior { call := some {} }).2 {} rfl

/-- C4: the terminal callback of a unary or client-streaming call emits
nothing when the error carries the cancelled code 1; exactly one `ERROR`
followed by exactly one `END` for any other error; exactly one `DATA`
followed by exactly one `END` on success. -/
theorem handleUnaryResponse_events {V : Type} (now : Nat)
    (requestStartTime : Option Nat) (response : V) :
    (∀ e : ServiceErr, e.code = some 1 →
      handleUnaryResponse now requestStartTime (some e) response = []) ∧
    (∀ e : ServiceErr, e.code ≠ some 1 →
      handleUnaryResponse now requestStartTime (some e) response =
        [.ERROR e (responseMetaInformation now requestStartTime none), .END]) ∧
    (handleUnaryResponse now requestStartTime none response =
      [.DATA response (responseMetaInformation now requestStartTime none), .END]) := by
  refine ⟨fun e he => ?_, fun e he => ?_, rfl⟩
  · simp [handleUnaryResponse, he]
  · simp [handleUnaryResponse, he]

theorem handleUnaryResponse_events_witness :
    (handleUnaryResponse 5 (some 2) (some { code := some 1 }) () = []) ∧
    (handleUnaryResponse 5 (some 2) (some { code := some 13 }) () =
      [.ERROR { code := some 13 } (responseMetaInformation 5 (some 2) none), .END]) ∧
    (handleUnaryResponse 5 (some 2) none () =
      [.DATA () (responseMetaInformation 5 (some 2) none), .END]) :=
  ⟨(handleUnaryResponse_events 5 (some 2) ()).1 _ rfl,
   (handleUnaryResponse_events 5 (some 2) ()).2.1 _ (by decide),
   (handleUnaryResponse_events 5 (some 2) ()).2.2⟩

/-- C5: for a server-streaming call, a transport error with code 1 emits
nothing; any other error emits exactly one `ERROR`, plus exactly one `END`
exactly when the code is 2 or 14; a clean transport `end` emits exactly
one `END`. -/
theorem handleServerStreaming_events (V : Type) (now : Nat)
    (streamStartTime : Option Nat) :
    (∀ e : ServiceErr, e.code = some 1 →
      (handleServerStreamingError V now streamStartTime (some e)).1 = []) ∧
    (∀ e : ServiceErr, e.code ≠ some 1 → ¬(e.code = some 2 ∨ e.code = some 14) →
      (handleServerStreamingError V now streamStartTime (some e)).1 =
        [.ERROR e (responseMetaInformation now streamStartTime (some true))]) ∧
    (∀ e : ServiceErr, e.code = some 2 ∨ e.code = some 14 →
      (handleServerStreamingError V now streamStartTime (some e)).1 =
        [.ERROR e (responseMetaInformation now streamStartTime (some true)), .END]) ∧
    (handleServerStreamingEnd V = [.END]) := by
  refine ⟨fun e he => ?_, fun e he hne => ?_, fun e he => ?_, rfl⟩
  · simp [handleServerStreamingError, he]
  · simp [handleServerStreamingError, he, hne]
  · have hne : e.code ≠ some 1 := by
      rcases he with h | h <;> simp [h]
    simp [handleServerStreamingError, hne, he]

theorem handleServerStreaming_events_witness :
    ((handleServerStreamingError Unit 5 (some 2) (some { code := some 1 })).1 = []) ∧
    ((handleServerStreamingError Unit 5 (some 2) (some { code := some 13 })).1 =
      [.ERROR { code := some 13 } (responseMetaInformation 5 (some 2) (some true))]) ∧
    ((handleServerStreamingError Unit 5 (some 2) (some { code := some 14 })).1 =
      [.ERROR { code := some 14 } (responseMetaInformation 5 (some 2) (some true)), .END]) ∧
    (handleServerStreamingEnd Unit = [.END]) :=
  ⟨(handleServerStreaming_events Unit 5 (some 2)).1 _ rfl,
   (handleServerStreaming_events Unit 5 (some 2)).2.1 _ (by decide) (by decide),
   (handleServerStreaming_events Unit 5 (some 2)).2.2.1 _ (by decide),
   (handleServerStreaming_events Unit 5 (some 2)).2.2.2⟩

/-- C7: `write` never throws: it returns normally in every case. Without a
call handle it emits nothing and writes nothing; with a handle and an
unparsable payload it emits exactly one `ERROR` then one `END` and writes
nothing; with a parsable payload it writes the parsed inputs and emits
nothing. -/
theorem write_events {V : Type} (parseJson : String → Option V) (emptyV : V)
    (req : GRPCRequestState V) (data : String) :
    (req.call = none → req.write parseJson emptyV data = ([], req)) ∧
    (∀ call, req.call = some call →
      parseJson (if data = "" then "{}" else data) = none →
      req.write parseJson emptyV data =
        ([.ERROR { message := "Couldn't parse JSON inputs Invalid json" } {}, .END], req)) ∧
    (∀ call inputs, req.call = some call →
      parseJson (if data = "" then "{}" else data) = some inputs →
      req.write parseJson emptyV data =
        ([], { req with call := some { call with written := call.written ++ [inputs] } })) := by
  obtain ⟨callField⟩ := req
  refine ⟨fun h => ?_, fun call hc hp => ?_, fun call inputs hc hp => ?_⟩
  · subst h
    rfl
  · cases hc
    simp [GRPCRequestState.write, parseRequestInfo, hp]
  · cases hc
    simp [GRPCRequestState.write, parseRequestInfo, hp]

theorem write_events_witness :
    ((GRPCRequestState.write (V := String) { call := none }
        (fun s => if s = "bad" then none else some s) "{}" "x")
      = ([], { call := none })) ∧
    ((GRPCRequestState.write (V := String) { call := some {} }
        (fun s => if s = "bad" then none else some s) "{}" "bad")
      = ([.ERROR { message := "Couldn't parse JSON inputs Invalid json" } {}, .END],
          { call := some {} })) ∧
    ((GRPCRequestState.write (V := String) { call := some {} }
        (fun s => if s = "bad" then none else some s) "{}" "good")
      = ([], { call := some { written := ["good"] } })) :=
  ⟨(write_events _ _ { call := none } "x").1 rfl,
   (write_events _ _ { call := some {} } "bad").2.1 {} rfl (by decide),
   (write_events _ _ { call := some {} } "good").2.2 {} _ rfl (by decide)⟩

/-- C9: channel credential selection: no TLS material gives insecure
credentials with no file read; `useServerCertificate = true` gives
platform-default SSL credentials with no file read while an
`sslTargetHost` still overrides the target name and default authority;
otherwise SSL credentials are built from the content of the rootCert file
and, when supplied, the privateKey and certChain files, reading exactly
those paths. -/
theorem getClient_credentials (fileContent : String → String) :
    (getClient fileContent none =
      { creds := .insecure, options := {}, fileReads := [] }) ∧
    (∀ cert : Certificate, cert.useServerCertificate = some true →
      (getClient fileContent (some cert)).creds = .sslDefault ∧
      (getClient fileContent (some cert)).fileReads = [] ∧
      (∀ h, cert.sslTargetHost = some h → h ≠ "" →
        (getClient fileContent (some cert)).options =
          { sslTargetNameOverride := some h, defaultAuthority := some h })) ∧
    (∀ cert : Certificate, cert.useServerCertificate ≠ some true →
      (getClient fileContent (some cert)).creds =
        .ssl (fileContent cert.rootCert.filePath)
          (cert.privateKey.map (fun f => fileContent f.filePath))
          (cert.certChain.map (fun f => fileContent f.filePath)) ∧
      (getClient fileContent (some cert)).fileReads =
        [cert.rootCert.filePath] ++
          (cert.privateKey.map (fun f => f.filePath)).toList ++
          (cert.certChain.map (fun f => f.filePath)).toList ∧
      (∀ h, cert.sslTargetHost = some h → h ≠ "" →
        (getClient fileContent (some cert)).options =
          { sslTargetNameOverride := some h, defaultAuthority := some h })) := by
  refine ⟨rfl, fun cert hu => ?_, fun cert hu => ?_⟩
  · refine ⟨by simp [getClient, hu], by simp [getClient, hu], fun h hh hne => ?_⟩
    simp [getClient, hu, hh, hne]
  · refine ⟨by simp [getClient, hu], by simp [getClient, hu], fun h hh hne => ?_⟩
    simp [getClient, hu, hh, hne]

theorem getClient_credentials_witness :
    ((getClient (fun _ => "PEM") (some
        { rootCert := { fileName := "ca.crt", filePath := "/certs/ca.crt" }
          useServerCertificate := some true
          sslTargetHost := some "svc.internal" })).creds = .sslDefault ∧
      (getClient (fun _ => "PEM") (some
        { rootCert := { fileName := "ca.crt", filePath := "/certs/ca.crt" }
          useServerCertificate := some true
          sslTargetHost := some "svc.internal" })).fileReads = []) ∧
    ((getClient (fun _ => "PEM") (some
        { rootCert := { fileName := "ca.crt", filePath := "/certs/ca.crt" } })).creds =
      .ssl "PEM" none none ∧
      (getClient (fun _ => "PEM") (some
        { rootCert := { fileName := "ca.crt", filePath := "/certs/ca.crt" } })).fileReads =
        ["/certs/ca.crt"]) := by
  constructor
  · exact ⟨((getClient_credentials (fun _ => "PEM")).2.1 _ rfl).1,
      ((getClient_credentials (fun _ => "PEM")).2.1 _ rfl).2.1⟩
  · refine ⟨((getClient_credentials (fun _ => "PEM")).2.2 _ (by decide)).1, ?_⟩
    have h := ((getClient_credentials (fun _ => "PEM")).2.2
      { rootCert := { fileName := "ca.crt", filePath := "/certs/ca.crt" } }
      (by decide)).2.1
    simpa using h


/-! ## DefaultEncoder (`src/service/CertStore/encrypt.ts`)

The encoder validates key and IV lengths and delegates to node crypto
`aes-256-cbc` with utf-8 input and hex output.  The cipher it delegates to
is modelled in full: the FIPS-197 AES-256 block cipher, CBC chaining,
PKCS#7 padding and hex encoding.  Strings are modelled as their byte
sequences (`Buffer.from` is injective on strings), so `encode` and
`decode` act on lists of bytes.
-/

abbrev Byte := Fin 256

theorem xor_lt_256 {a b : Nat} (ha : a < 256) (hb : b < 256) : a ^^^ b < 256 := by
  have h8 : (256 : Nat) = 2 ^ 8 := by norm_num
  rw [h8] at ha hb ⊢
  exact Nat.xor_lt_two_pow ha hb

/-- XOR on bytes. -/
def bxor (a b : Byte) : Byte := ⟨a.val ^^^ b.val, xor_lt_256 a.isLt b.isLt⟩

theorem bxor_assoc (a b c : Byte) : bxor (bxor a b) c = bxor a (bxor b c) :=
  Fin.ext (Nat.xor_assoc _ _ _)

theorem bxor_comm (a b : Byte) : bxor a b = bxor b a :=
  Fin.ext (Nat.xor_comm _ _)

instance : Std.Associative bxor := ⟨bxor_assoc⟩

instance : Std.Commutative bxor := ⟨bxor_comm⟩

theorem bxor_cancel (a b : Byte) : bxor (bxor a b) b = a :=
  Fin.ext (Nat.xor_cancel_right _ _)

theorem bxor_zero (a : Byte) : bxor a 0 = a :=
  Fin.ext (by simp [bxor])

theorem zero_bxor (a : Byte) : bxor 0 a = a := by
  rw [bxor_comm]
  exact bxor_zero a

def sboxTable : List Byte := [
  0x63, 0x7c, 0x77, 0x7b, 0xf2, 0x6b, 0x6f, 0xc5,
  0x30, 0x01, 0x67, 0x2b, 0xfe, 0xd7, 0xab, 0x76,
  0xca, 0x82, 0xc9, 0x7d, 0xfa, 0x59, 0x47, 0xf0,
  0xad, 0xd4, 0xa2, 0xaf, 0x9c, 0xa4, 0x72, 0xc0,
  0xb7, 0xfd, 0x93, 0x26, 0x36, 0x3f, 0xf7, 0xcc,
  0x34, 0xa5, 0xe5, 0xf1, 0x71, 0xd8, 0x31, 0x15,
  0x04, 0xc7, 0x23, 0xc3, 0x18, 0x96, 0x05, 0x9a,
  0x07, 0x12, 0x80, 0xe2, 0xeb, 0x27, 0xb2, 0x75,
  0x09, 0x83, 0x2c, 0x1a, 0x1b, 0x6e, 0x5a, 0xa0,
  0x52, 0x3b, 0xd6, 0xb3, 0x29, 0xe3, 0x2f, 0x84,
  0x53, 0xd1, 0x00, 0xed, 0x20, 0xfc, 0xb1, 0x5b,
  0x6a, 0xcb, 0xbe, 0x39, 0x4a, 0x4c, 0x58, 0xcf,
  0xd0, 0xef, 0xaa, 0xfb, 0x43, 0x4d, 0x33, 0x85,
  0x45, 0xf9, 0x02, 0x7f, 0x50, 0x3c, 0x9f, 0xa8,
  0x51, 0xa3, 0x40, 0x8f, 0x92, 0x9d, 0x38, 0xf5,
  0xbc, 0xb6, 0xda, 0x21, 0x10, 0xff, 0xf3, 0xd2,
  0xcd, 0x0c, 0x13, 0xec, 0x5f, 0x97, 0x44, 0x17,
  0xc4, 0xa7, 0x7e, 0x3d, 0x64, 0x5d, 0x19, 0x73,
  0x60, 0x81, 0x4f, 0xdc, 0x22, 0x2a, 0x90, 0x88,
  0x46, 0xee, 0xb8, 0x14, 0xde, 0x5e, 0x0b, 0xdb,
  0xe0, 0x32, 0x3a, 0x0a, 0x49, 0x06, 0x24, 0x5c,
  0xc2, 0xd3, 0xac, 0x62, 0x91, 0x95, 0xe4, 0x79,
  0xe7, 0xc8, 0x37, 0x6d, 0x8d, 0xd5, 0x4e, 0xa9,
  0x6c, 0x56, 0xf4, 0xea, 0x65, 0x7a, 0xae, 0x08,
  0xba, 0x78, 0x25, 0x2e, 0x1c, 0xa6, 0xb4, 0xc6,
  0xe8, 0xdd, 0x74, 0x1f, 0x4b, 0xbd, 0x8b, 0x8a,
  0x70, 0x3e, 0xb5, 0x66, 0x48, 0x03, 0xf6, 0x0e,
  0x61, 0x35, 0x57, 0xb9, 0x86, 0xc1, 0x1d, 0x9e,
  0xe1, 0xf8, 0x98, 0x11, 0x69, 0xd9, 0x8e, 0x94,
  0x9b, 0x1e, 0x87, 0xe9, 0xce, 0x55, 0x28, 0xdf,
  0x8c, 0xa1, 0x89, 0x0d, 0xbf, 0xe6, 0x42, 0x68,
  0x41, 0x99, 0x2d, 0x0f, 0xb0, 0x54, 0xbb, 0x16]

def invSboxTable : List Byte := [
  0x52, 0x09, 0x6a, 0xd5, 0x30, 0x36, 0xa5, 0x38,
  0xbf, 0x40, 0xa3, 0x9e, 0x81, 0xf3, 0xd7, 0xfb,
  0x7c, 0xe3, 0x39, 0x82, 0x9b, 0x2f, 0xff, 0x87,
  0x34, 0x8e, 0x43, 0x44, 0xc4, 0xde, 0xe9, 0xcb,
  0x54, 0x7b, 0x94, 0x32, 0xa6, 0xc2, 0x23, 0x3d,
  0xee, 0x4c, 0x95, 0x0b, 0x42, 0xfa, 0xc3, 0x4e,
  0x08, 0x2e, 0xa1, 0x66, 0x28, 0xd9, 0x24, 0xb2,
  0x76, 0x5b, 0xa2, 0x49, 0x6d, 0x8b, 0xd1, 0x25,
  0x72, 0xf8, 0xf6, 0x64, 0x86, 0x68, 0x98, 0x16,
  0xd4, 0xa4, 0x5c, 0xcc, 0x5d, 0x65, 0xb6, 0x92,
  0x6c, 0x70, 0x48, 0x50, 0xfd, 0xed, 0xb9, 0xda,
  0x5e, 0x15, 0x46, 0x57, 0xa7, 0x8d, 0x9d, 0x84,
  0x90, 0xd8, 0xab, 0x00, 0x8c, 0xbc, 0xd3, 0x0a,
  0xf7, 0xe4, 0x58, 0x05, 0xb8, 0xb3, 0x45, 0x06,
  0xd0, 0x2c, 0x1e, 0x8f, 0xca, 0x3f, 0x0f, 0x02,
  0xc1, 0xaf, 0xbd, 0x03, 0x01, 0x13, 0x8a, 0x6b,
  0x3a, 0x91, 0x11, 0x41, 0x4f, 0x67, 0xdc, 0xea,
  0x97, 0xf2, 0xcf, 0xce, 0xf0, 0xb4, 0xe6, 0x73,
  0x96, 0xac, 0x74, 0x22, 0xe7, 0xad, 0x35, 0x85,
  0xe2, 0xf9, 0x37, 0xe8, 0x1c, 0x75, 0xdf, 0x6e,
  0x47, 0xf1, 0x1a, 0x71, 0x1d, 0x29, 0xc5, 0x89,
  0x6f, 0xb7, 0x62, 0x0e, 0xaa, 0x18, 0xbe, 0x1b,
  0xfc, 0x56, 0x3e, 0x4b, 0xc6, 0xd2, 0x79, 0x20,
  0x9a, 0xdb, 0xc0, 0xfe, 0x78, 0xcd, 0x5a, 0xf4,
  0x1f, 0xdd, 0xa8, 0x33, 0x88, 0x07, 0xc7, 0x31,
  0xb1, 0x12, 0x10, 0x59, 0x27, 0x80, 0xec, 0x5f,
  0x60, 0x51, 0x7f, 0xa9, 0x19, 0xb5, 0x4a, 0x0d,
  0x2d, 0xe5, 0x7a, 0x9f, 0x93, 0xc9, 0x9c, 0xef,
  0xa0, 0xe0, 0x3b, 0x4d, 0xae, 0x2a, 0xf5, 0xb0,
  0xc8, 0xeb, 0xbb, 0x3c, 0x83, 0x53, 0x99, 0x61,
  0x17, 0x2b, 0x04, 0x7e, 0xba, 0x77, 0xd6, 0x26,
  0xe1, 0x69, 0x14, 0x63, 0x55, 0x21, 0x0c, 0x7d]


/-- SubBytes lookup. -/
def sbox (b : Byte) : Byte := sboxTable.getD b.val 0

def invSbox (b : Byte) : Byte := invSboxTable.getD b.val 0

set_option maxRecDepth 4000 in
theorem invSbox_sbox : ∀ b : Byte, invSbox (sbox b) = b := by decide

/-- Multiplication by x in GF(2^8) modulo the AES polynomial 0x11B. -/
def xtime (b : Byte) : Byte :=
  ⟨((2 * b.val) ^^^ (if 128 ≤ b.val then 283 else 0)) % 256,
    Nat.mod_lt _ (by norm_num)⟩

theorem two_mul_xor (a b : Nat) : 2 * (a ^^^ b) = 2 * a ^^^ 2 * b := by
  have hs : ∀ n : Nat, 2 * n = n <<< 1 := by
    intro n
    rw [Nat.shiftLeft_eq]
    ring
  rw [hs, hs, hs]
  apply Nat.eq_of_testBit_eq
  intro i
  simp only [Nat.testBit_shiftLeft, Nat.testBit_xor]
  cases h : decide (1 ≤ i) <;> simp

theorem testBit7_of_lt {v : Nat} (h : v < 256) :
    v.testBit 7 = decide (128 ≤ v) := by
  rw [Nat.testBit_to_div_mod]
  apply decide_eq_decide.mpr
  have h7 : (2 : Nat) ^ 7 = 128 := by norm_num
  rw [h7]
  omega

theorem xtime_inner_lt {v : Nat} (h : v < 256) :
    (2 * v ^^^ (if 128 ≤ v then 283 else 0)) < 256 := by
  rcases Nat.lt_or_ge v 128 with h1 | h1
  · rw [if_neg (Nat.not_le.mpr h1)]
    simpa using by omega
  · rw [if_pos h1]
    have hlt : 2 * v ^^^ 283 < 512 := by
      have h9 : (512 : Nat) = 2 ^ 9 := by norm_num
      rw [h9]
      exact Nat.xor_lt_two_pow (by omega) (by norm_num)
    have hbit : (2 * v ^^^ 283).testBit 8 = false := by
      rw [Nat.testBit_xor]
      have hb1 : (2 * v).testBit 8 = true := by
        rw [Nat.testBit_to_div_mod]
        apply decide_eq_true
        have h8 : (2 : Nat) ^ 8 = 256 := by norm_num
        rw [h8]
        omega
      have hb2 : (283 : Nat).testBit 8 = true := by decide
      rw [hb1, hb2]
      rfl
    rw [Nat.testBit_to_div_mod] at hbit
    have hne := of_decide_eq_false hbit
    have h8 : (2 : Nat) ^ 8 = 256 := by norm_num
    rw [h8] at hne
    omega

theorem xtime_val (b : Byte) :
    (xtime b).val = 2 * b.val ^^^ (if 128 ≤ b.val then 283 else 0) := by
  simp only [xtime]
  exact Nat.mod_eq_of_lt (xtime_inner_lt b.isLt)

theorem xor_left_comm_nat (a b c : Nat) : a ^^^ (b ^^^ c) = b ^^^ (a ^^^ c) := by
  rw [← Nat.xor_assoc, Nat.xor_comm a b, Nat.xor_assoc]

/-- xtime is additive over XOR: the key linearity fact for MixColumns. -/
theorem xtime_bxor (x y : Byte) : xtime (bxor x y) = bxor (xtime x) (xtime y) := by
  apply Fin.ext
  have hx := xtime_val x
  have hy := xtime_val y
  have hxy := xtime_val (bxor x y)
  have hval : (bxor x y).val = x.val ^^^ y.val := rfl
  have hrhs : (bxor (xtime x) (xtime y)).val = (xtime x).val ^^^ (xtime y).val := rfl
  rw [hrhs, hx, hy, hxy, hval, two_mul_xor]
  have hcond : (if 128 ≤ (x.val ^^^ y.val) then 283 else 0) =
      ((if 128 ≤ x.val then 283 else 0) ^^^ (if 128 ≤ y.val then 283 else 0) : Nat) := by
    have htx := testBit7_of_lt x.isLt
    have hty := testBit7_of_lt y.isLt
    have htxy := testBit7_of_lt (xor_lt_256 x.isLt y.isLt)
    rw [Nat.testBit_xor, htx, hty] at htxy
    by_cases hdx : 128 ≤ x.val <;> by_cases hdy : 128 ≤ y.val <;>
      simp [hdx, hdy] at htxy <;> simp [hdx, hdy, htxy]
  rw [hcond]
  simp only [Nat.xor_assoc]
  rw [xor_left_comm_nat (2 * y.val)]

def mul2 (b : Byte) : Byte := xtime b

def mul3 (b : Byte) : Byte := bxor (xtime b) b

def mul9 (b : Byte) : Byte := bxor (xtime (xtime (xtime b))) b

def mul11 (b : Byte) : Byte := bxor (bxor (xtime (xtime (xtime b))) (xtime b)) b

def mul13 (b : Byte) : Byte := bxor (bxor (xtime (xtime (xtime b))) (xtime (xtime b))) b

def mul14 (b : Byte) : Byte := bxor (bxor (xtime (xtime (xtime b))) (xtime (xtime b))) (xtime b)

theorem mul9_bxor (x y : Byte) : mul9 (bxor x y) = bxor (mul9 x) (mul9 y) := by
  simp only [mul9, xtime_bxor]
  ac_rfl

theorem mul11_bxor (x y : Byte) : mul11 (bxor x y) = bxor (mul11 x) (mul11 y) := by
  simp only [mul11, xtime_bxor]
  ac_rfl

theorem mul13_bxor (x y : Byte) : mul13 (bxor x y) = bxor (mul13 x) (mul13 y) := by
  simp only [mul13, xtime_bxor]
  ac_rfl

theorem mul14_bxor (x y : Byte) : mul14 (bxor x y) = bxor (mul14 x) (mul14 y) := by
  simp only [mul14, xtime_bxor]
  ac_rfl

set_option maxRecDepth 16000 in
set_option maxHeartbeats 2000000 in
theorem collapse_identities : ∀ x : Byte,
      (bxor (bxor (bxor (mul14 (mul2 (x))) (mul11 (x))) (mul13 (x))) (mul9 (mul3 (x))) = x) ∧
      (bxor (bxor (bxor (mul14 (mul3 (x))) (mul11 (mul2 (x)))) (mul13 (x))) (mul9 (x)) = (0 : Byte)) ∧
      (bxor (bxor (bxor (mul14 (x)) (mul11 (mul3 (x)))) (mul13 (mul2 (x)))) (mul9 (x)) = (0 : Byte)) ∧
      (bxor (bxor (bxor (mul14 (x)) (mul11 (x))) (mul13 (mul3 (x)))) (mul9 (mul2 (x))) = (0 : Byte)) ∧
      (bxor (bxor (bxor (mul9 (mul2 (x))) (mul14 (x))) (mul11 (x))) (mul13 (mul3 (x))) = (0 : Byte)) ∧
      (bxor (bxor (bxor (mul9 (mul3 (x))) (mul14 (mul2 (x)))) (mul11 (x))) (mul13 (x)) = x) ∧
      (bxor (bxor (bxor (mul9 (x)) (mul14 (mul3 (x)))) (mul11 (mul2 (x)))) (mul13 (x)) = (0 : Byte)) ∧
      (bxor (bxor (bxor (mul9 (x)) (mul14 (x))) (mul11 (mul3 (x)))) (mul13 (mul2 (x))) = (0 : Byte)) ∧
      (bxor (bxor (bxor (mul13 (mul2 (x))) (mul9 (x))) (mul14 (x))) (mul11 (mul3 (x))) = (0 : Byte)) ∧
      (bxor (bxor (bxor (mul13 (mul3 (x))) (mul9 (mul2 (x)))) (mul14 (x))) (mul11 (x)) = (0 : Byte)) ∧
      (bxor (bxor (bxor (mul13 (x)) (mul9 (mul3 (x)))) (mul14 (mul2 (x)))) (mul11 (x)) = x) ∧
      (bxor (bxor (bxor (mul13 (x)) (mul9 (x))) (mul14 (mul3 (x)))) (mul11 (mul2 (x))) = (0 : Byte)) ∧
      (bxor (bxor (bxor (mul11 (mul2 (x))) (mul13 (x))) (mul9 (x))) (mul14 (mul3 (x))) = (0 : Byte)) ∧
      (bxor (bxor (bxor (mul11 (mul3 (x))) (mul13 (mul2 (x)))) (mul9 (x))) (mul14 (x)) = (0 : Byte)) ∧
      (bxor (bxor (bxor (mul11 (x)) (mul13 (mul3 (x)))) (mul9 (mul2 (x)))) (mul14 (x)) = (0 : Byte)) ∧
      (bxor (bxor (bxor (mul11 (x)) (mul13 (x))) (mul9 (mul3 (x)))) (mul14 (mul2 (x))) = x) := by decide


/-! ### MixColumns on one column -/

def mixc0 (a b c d : Byte) : Byte := bxor (bxor (bxor (mul2 a) (mul3 b)) c) d

def mixc1 (a b c d : Byte) : Byte := bxor (bxor (bxor a (mul2 b)) (mul3 c)) d

def mixc2 (a b c d : Byte) : Byte := bxor (bxor (bxor a b) (mul2 c)) (mul3 d)

def mixc3 (a b c d : Byte) : Byte := bxor (bxor (bxor (mul3 a) b) c) (mul2 d)

def invc0 (a b c d : Byte) : Byte := bxor (bxor (bxor (mul14 a) (mul11 b)) (mul13 c)) (mul9 d)

def invc1 (a b c d : Byte) : Byte := bxor (bxor (bxor (mul9 a) (mul14 b)) (mul11 c)) (mul13 d)

def invc2 (a b c d : Byte) : Byte := bxor (bxor (bxor (mul13 a) (mul9 b)) (mul14 c)) (mul11 d)

def invc3 (a b c d : Byte) : Byte := bxor (bxor (bxor (mul11 a) (mul13 b)) (mul9 c)) (mul14 d)

theorem invMixCol0_mix (a b c d : Byte) :
    invc0 (mixc0 a b c d) (mixc1 a b c d) (mixc2 a b c d) (mixc3 a b c d) = a := by
  simp only [invc0, mixc0, mixc1, mixc2, mixc3,
    mul14_bxor, mul13_bxor, mul11_bxor, mul9_bxor]
  have ha := (collapse_identities a).1
  have hb := (collapse_identities b).2.1
  have hc := (collapse_identities c).2.2.1
  have hd := (collapse_identities d).2.2.2.1
  trans (bxor (bxor (bxor (bxor (bxor (bxor (mul14 (mul2 (a))) (mul11 (a))) (mul13 (a))) (mul9 (mul3 (a)))) (bxor (bxor (bxor (mul14 (mul3 (b))) (mul11 (mul2 (b)))) (mul13 (b))) (mul9 (b)))) (bxor (bxor (bxor (mul14 (c)) (mul11 (mul3 (c)))) (mul13 (mul2 (c)))) (mul9 (c)))) (bxor (bxor (bxor (mul14 (d)) (mul11 (d))) (mul13 (mul3 (d)))) (mul9 (mul2 (d)))))
  · ac_rfl
  · rw [ha, hb, hc, hd]
    simp [bxor_zero, zero_bxor]

theorem invMixCol1_mix (a b c d : Byte) :
    invc1 (mixc0 a b c d) (mixc1 a b c d) (mixc2 a b c d) (mixc3 a b c d) = b := by
  simp only [invc1, mixc0, mixc1, mixc2, mixc3,
    mul14_bxor, mul13_bxor, mul11_bxor, mul9_bxor]
  have ha := (collapse_identities a).2.2.2.2.1
  have hb := (collapse_identities b).2.2.2.2.2.1
  have hc := (collapse_identities c).2.2.2.2.2.2.1
  have hd := (collapse_identities d).2.2.2.2.2.2.2.1
  trans (bxor (bxor (bxor (bxor (bxor (bxor (mul9 (mul2 (a))) (mul14 (a))) (mul11 (a))) (mul13 (mul3 (a)))) (bxor (bxor (bxor (mul9 (mul3 (b))) (mul14 (mul2 (b)))) (mul11 (b))) (mul13 (b)))) (bxor (bxor (bxor (mul9 (c)) (mul14 (mul3 (c)))) (mul11 (mul2 (c)))) (mul13 (c)))) (bxor (bxor (bxor (mul9 (d)) (mul14 (d))) (mul11 (mul3 (d)))) (mul13 (mul2 (d)))))
  · ac_rfl
  · rw [ha, hb, hc, hd]
    simp [bxor_zero, zero_bxor]

theorem invMixCol2_mix (a b c d : Byte) :
    invc2 (mixc0 a b c d) (mixc1 a b c d) (mixc2 a b c d) (mixc3 a b c d) = c := by
  simp only [invc2, mixc0, mixc1, mixc2, mixc3,
    mul14_bxor, mul13_bxor, mul11_bxor, mul9_bxor]
  have ha := (collapse_identities a).2.2.2.2.2.2.2.2.1
  have hb := (collapse_identities b).2.2.2.2.2.2.2.2.2.1
  have hc := (collapse_identities c).2.2.2.2.2.2.2.2.2.2.1
  have hd := (collapse_identities d).2.2.2.2.2.2.2.2.2.2.2.1
  trans (bxor (bxor (bxor (bxor (bxor (bxor (mul13 (mul2 (a))) (mul9 (a))) (mul14 (a))) (mul11 (mul3 (a)))) (bxor (bxor (bxor (mul13 (mul3 (b))) (mul9 (mul2 (b)))) (mul14 (b))) (mul11 (b)))) (bxor (bxor (bxor (mul13 (c)) (mul9 (mul3 (c)))) (mul14 (mul2 (c)))) (mul11 (c)))) (bxor (bxor (bxor (mul13 (d)) (mul9 (d))) (mul14 (mul3 (d)))) (mul11 (mul2 (d)))))
  · ac_rfl
  · rw [ha, hb, hc, hd]
    simp [bxor_zero, zero_bxor]

theorem invMixCol3_mix (a b c d : Byte) :
    invc3 (mixc0 a b c d) (mixc1 a b c d) (mixc2 a b c d) (mixc3 a b c d) = d := by
  simp only [invc3, mixc0, mixc1, mixc2, mixc3,
    mul14_bxor, mul13_bxor, mul11_bxor, mul9_bxor]
  have ha := (collapse_identities a).2.2.2.2.2.2.2.2.2.2.2.2.1
  have hb := (collapse_identities b).2.2.2.2.2.2.2.2.2.2.2.2.2.1
  have hc := (collapse_identities c).2.2.2.2.2.2.2.2.2.2.2.2.2.2.1
  have hd := (collapse_identities d).2.2.2.2.2.2.2.2.2.2.2.2.2.2.2
  trans (bxor (bxor (bxor (bxor (bxor (bxor (mul11 (mul2 (a))) (mul13 (a))) (mul9 (a))) (mul14 (mul3 (a)))) (bxor (bxor (bxor (mul11 (mul3 (b))) (mul13 (mul2 (b)))) (mul9 (b))) (mul14 (b)))) (bxor (bxor (bxor (mul11 (c)) (mul13 (mul3 (c)))) (mul9 (mul2 (c)))) (mul14 (c)))) (bxor (bxor (bxor (mul11 (d)) (mul13 (d))) (mul9 (mul3 (d)))) (mul14 (mul2 (d)))))
  · ac_rfl
  · rw [ha, hb, hc, hd]
    simp [bxor_zero, zero_bxor]



/-! ### The AES state: one 16-byte block (column-major as in FIPS-197) -/

structure Block where
  (b0 b1 b2 b3 b4 b5 b6 b7 b8 b9 b10 b11 b12 b13 b14 b15 : Byte)
  deriving Repr, DecidableEq

def xorBlock (s k : Block) : Block :=
  ⟨bxor s.b0 k.b0, bxor s.b1 k.b1, bxor s.b2 k.b2, bxor s.b3 k.b3, bxor s.b4 k.b4, bxor s.b5 k.b5, bxor s.b6 k.b6, bxor s.b7 k.b7, bxor s.b8 k.b8, bxor s.b9 k.b9, bxor s.b10 k.b10, bxor s.b11 k.b11, bxor s.b12 k.b12, bxor s.b13 k.b13, bxor s.b14 k.b14, bxor s.b15 k.b15⟩

def subBytesB (s : Block) : Block :=
  ⟨sbox s.b0, sbox s.b1, sbox s.b2, sbox s.b3, sbox s.b4, sbox s.b5, sbox s.b6, sbox s.b7, sbox s.b8, sbox s.b9, sbox s.b10, sbox s.b11, sbox s.b12, sbox s.b13, sbox s.b14, sbox s.b15⟩

def invSubBytesB (s : Block) : Block :=
  ⟨invSbox s.b0, invSbox s.b1, invSbox s.b2, invSbox s.b3, invSbox s.b4, invSbox s.b5, invSbox s.b6, invSbox s.b7, invSbox s.b8, invSbox s.b9, invSbox s.b10, invSbox s.b11, invSbox s.b12, invSbox s.b13, invSbox s.b14, invSbox s.b15⟩

def shiftRowsB (s : Block) : Block :=
  ⟨s.b0, s.b5, s.b10, s.b15, s.b4, s.b9, s.b14, s.b3, s.b8, s.b13, s.b2, s.b7, s.b12, s.b1, s.b6, s.b11⟩

def invShiftRowsB (s : Block) : Block :=
  ⟨s.b0, s.b13, s.b10, s.b7, s.b4, s.b1, s.b14, s.b11, s.b8, s.b5, s.b2, s.b15, s.b12, s.b9, s.b6, s.b3⟩

def mixColumnsB (s : Block) : Block :=
  ⟨mixc0 s.b0 s.b1 s.b2 s.b3, mixc1 s.b0 s.b1 s.b2 s.b3, mixc2 s.b0 s.b1 s.b2 s.b3, mixc3 s.b0 s.b1 s.b2 s.b3, mixc0 s.b4 s.b5 s.b6 s.b7, mixc1 s.b4 s.b5 s.b6 s.b7, mixc2 s.b4 s.b5 s.b6 s.b7, mixc3 s.b4 s.b5 s.b6 s.b7, mixc0 s.b8 s.b9 s.b10 s.b11, mixc1 s.b8 s.b9 s.b10 s.b11, mixc2 s.b8 s.b9 s.b10 s.b11, mixc3 s.b8 s.b9 s.b10 s.b11, mixc0 s.b12 s.b13 s.b14 s.b15, mixc1 s.b12 s.b13 s.b14 s.b15, mixc2 s.b12 s.b13 s.b14 s.b15, mixc3 s.b12 s.b13 s.b14 s.b15⟩

def invMixColumnsB (s : Block) : Block :=
  ⟨invc0 s.b0 s.b1 s.b2 s.b3, invc1 s.b0 s.b1 s.b2 s.b3, invc2 s.b0 s.b1 s.b2 s.b3, invc3 s.b0 s.b1 s.b2 s.b3, invc0 s.b4 s.b5 s.b6 s.b7, invc1 s.b4 s.b5 s.b6 s.b7, invc2 s.b4 s.b5 s.b6 s.b7, invc3 s.b4 s.b5 s.b6 s.b7, invc0 s.b8 s.b9 s.b10 s.b11, invc1 s.b8 s.b9 s.b10 s.b11, invc2 s.b8 s.b9 s.b10 s.b11, invc3 s.b8 s.b9 s.b10 s.b11, invc0 s.b12 s.b13 s.b14 s.b15, invc1 s.b12 s.b13 s.b14 s.b15, invc2 s.b12 s.b13 s.b14 s.b15, invc3 s.b12 s.b13 s.b14 s.b15⟩

theorem xorBlock_cancel (s k : Block) : xorBlock (xorBlock s k) k = s := by
  cases s
  cases k
  simp [xorBlock, bxor_cancel]

theorem invSubBytesB_subBytesB (s : Block) : invSubBytesB (subBytesB s) = s := by
  cases s
  simp [subBytesB, invSubBytesB, invSbox_sbox]

theorem invShiftRowsB_shiftRowsB (s : Block) : invShiftRowsB (shiftRowsB s) = s := rfl

theorem invMixColumnsB_mixColumnsB (s : Block) : invMixColumnsB (mixColumnsB s) = s := by
  cases s
  simp only [mixColumnsB, invMixColumnsB,
    invMixCol0_mix, invMixCol1_mix, invMixCol2_mix, invMixCol3_mix]

/-! ### The AES-256 round structure (FIPS-197 Cipher and InvCipher) -/

def encRounds : List Block → Block → Block
  | [], s => s
  | [kLast], s => xorBlock (shiftRowsB (subBytesB s)) kLast
  | k :: k2 :: rest, s =>
      encRounds (k2 :: rest) (xorBlock (mixColumnsB (shiftRowsB (subBytesB s))) k)

def aesEncryptBlock (roundKeys : List Block) (s : Block) : Block :=
  match roundKeys with
  | [] => s
  | k0 :: rest => encRounds rest (xorBlock s k0)

def decRounds : List Block → Block → Block
  | [], c => c
  | [kLast], c => invSubBytesB (invShiftRowsB (xorBlock c kLast))
  | k :: k2 :: rest, c =>
      invSubBytesB (invShiftRowsB (invMixColumnsB (xorBlock (decRounds (k2 :: rest) c) k)))

def aesDecryptBlock (roundKeys : List Block) (c : Block) : Block :=
  match roundKeys with
  | [] => c
  | k0 :: rest => xorBlock (decRounds rest c) k0

theorem decRounds_encRounds : ∀ (roundKeys : List Block) (s : Block),
    decRounds roundKeys (encRounds roundKeys s) = s := by
  intro roundKeys
  induction roundKeys with
  | nil => intro s; rfl
  | cons k rest ih =>
    intro s
    cases rest with
    | nil =>
      show decRounds [k] (encRounds [k] s) = s
      rw [encRounds, decRounds, xorBlock_cancel, invShiftRowsB_shiftRowsB,
        invSubBytesB_subBytesB]
    | cons k2 rest2 =>
      show decRounds (k :: k2 :: rest2) (encRounds (k :: k2 :: rest2) s) = s
      rw [encRounds, decRounds, ih, xorBlock_cancel, invMixColumnsB_mixColumnsB,
        invShiftRowsB_shiftRowsB, invSubBytesB_subBytesB]

/-- The AES-256 block decryption inverts encryption for every round key
schedule, in particular for the expansion of the configured secret key. -/
theorem aesDecryptBlock_aesEncryptBlock (roundKeys : List Block) (s : Block) :
    aesDecryptBlock roundKeys (aesEncryptBlock roundKeys s) = s := by
  cases roundKeys with
  | nil => rfl
  | cons k0 rest =>
    show xorBlock (decRounds rest (encRounds rest (xorBlock s k0))) k0 = s
    rw [decRounds_encRounds, xorBlock_cancel]

/-! ### AES-256 key schedule -/

structure Word where
  a : Byte
  b : Byte
  c : Byte
  d : Byte
  deriving Repr, DecidableEq

def subWord (w : Word) : Word := ⟨sbox w.a, sbox w.b, sbox w.c, sbox w.d⟩

def rotWord (w : Word) : Word := ⟨w.b, w.c, w.d, w.a⟩

def xorWord (v w : Word) : Word := ⟨bxor v.a w.a, bxor v.b w.b, bxor v.c w.c, bxor v.d w.d⟩

def rcon : List Byte := [0x01, 0x02, 0x04, 0x08, 0x10, 0x20, 0x40]

def rconWord (i : Nat) : Word := ⟨rcon.getD (i - 1) 0, 0, 0, 0⟩

def bytesToWords : List Byte → List Word
  | a :: b :: c :: d :: rest => ⟨a, b, c, d⟩ :: bytesToWords rest
  | _ => []

/-- Word generation loop of the FIPS-197 AES-256 key expansion
(`Nk = 8`, 60 words). -/
def expandLoop (acc : List Word) (i : Nat) : List Word :=
  if 60 ≤ i then acc
  else
    let temp := acc.getD (i - 1) ⟨0, 0, 0, 0⟩
    let prev8 := acc.getD (i - 8) ⟨0, 0, 0, 0⟩
    let temp2 :=
      if i % 8 = 0 then xorWord (subWord (rotWord temp)) (rconWord (i / 8))
      else if i % 8 = 4 then subWord temp
      else temp
    expandLoop (acc ++ [xorWord prev8 temp2]) (i + 1)
  termination_by 60 - i
  decreasing_by omega

def wordsToBlocks : List Word → List Block
  | w0 :: w1 :: w2 :: w3 :: rest => ⟨w0.a, w0.b, w0.c, w0.d, w1.a, w1.b, w1.c, w1.d, w2.a, w2.b, w2.c, w2.d, w3.a, w3.b, w3.c, w3.d⟩ :: wordsToBlocks rest
  | _ => []

def keyExpansion (key : List Byte) : List Block :=
  wordsToBlocks (expandLoop (bytesToWords key) 8)

/-! ### Bytes, blocks, PKCS#7 padding, CBC chaining, hex coding -/

def byteOfNat (n : Nat) : Byte := ⟨n % 256, Nat.mod_lt _ (by norm_num)⟩

def listToBlock (l : List Byte) : Block :=
  ⟨l.getD 0 0, l.getD 1 0, l.getD 2 0, l.getD 3 0, l.getD 4 0, l.getD 5 0, l.getD 6 0, l.getD 7 0, l.getD 8 0, l.getD 9 0, l.getD 10 0, l.getD 11 0, l.getD 12 0, l.getD 13 0, l.getD 14 0, l.getD 15 0⟩

def blockToBytes (s : Block) : List Byte :=
  [s.b0, s.b1, s.b2, s.b3, s.b4, s.b5, s.b6, s.b7, s.b8, s.b9, s.b10, s.b11, s.b12, s.b13, s.b14, s.b15]

theorem listToBlock_blockToBytes (s : Block) : listToBlock (blockToBytes s) = s := rfl

theorem length_blockToBytes (s : Block) : (blockToBytes s).length = 16 := rfl

def bytesToBlocks (l : List Byte) : List Block :=
  if l.length < 16 then []
  else listToBlock (l.take 16) :: bytesToBlocks (l.drop 16)
  termination_by l.length
  decreasing_by simp; omega

def blocksToBytes (bs : List Block) : List Byte := (bs.map blockToBytes).flatten

theorem blockToBytes_listToBlock (m : List Byte) (hm : m.length = 16) :
    blockToBytes (listToBlock m) = m := by
  apply List.ext_getElem
  · simp [blockToBytes, listToBlock, hm]
  · intro i h1 h2
    have h16 : i < 16 := by
      simpa [blockToBytes, listToBlock] using h1
    interval_cases i <;>
      simp [blockToBytes, listToBlock, List.getElem?_eq_getElem h2]

theorem bytesToBlocks_nil : bytesToBlocks [] = [] := by
  rw [bytesToBlocks]
  simp

theorem bytesToBlocks_blocksToBytes (bs : List Block) :
    bytesToBlocks (blocksToBytes bs) = bs := by
  induction bs with
  | nil => exact bytesToBlocks_nil
  | cons b rest ih =>
    show bytesToBlocks (blockToBytes b ++ blocksToBytes rest) = b :: rest
    rw [bytesToBlocks]
    rw [if_neg (by simp [length_blockToBytes])]
    rw [List.take_left' (length_blockToBytes b), List.drop_left' (length_blockToBytes b),
      listToBlock_blockToBytes, ih]

theorem blocksToBytes_bytesToBlocks (l : List Byte) (h : l.length % 16 = 0) :
    blocksToBytes (bytesToBlocks l) = l := by
  induction l using bytesToBlocks.induct with
  | case1 l hlt =>
    have : l.length = 0 := by omega
    have hnil : l = [] := List.eq_nil_of_length_eq_zero this
    subst hnil
    rw [bytesToBlocks_nil]
    rfl
  | case2 l hlt ih =>
    rw [bytesToBlocks, if_neg hlt]
    show blockToBytes (listToBlock (l.take 16)) ++ blocksToBytes (bytesToBlocks (l.drop 16)) = l
    have htake : (l.take 16).length = 16 := by
      rw [List.length_take]
      omega
    rw [blockToBytes_listToBlock _ htake, ih (by simp; omega), List.take_append_drop]

theorem length_blocksToBytes (bs : List Block) :
    (blocksToBytes bs).length % 16 = 0 := by
  induction bs with
  | nil => rfl
  | cons b rest ih =>
    show (blockToBytes b ++ blocksToBytes rest).length % 16 = 0
    rw [List.length_append, length_blockToBytes]
    omega


/-! ### PKCS#7 padding (as applied by OpenSSL for aes-256-cbc) -/

def padBytes (l : List Byte) : List Byte :=
  l ++ List.replicate (16 - l.length % 16) (byteOfNat (16 - l.length % 16))

def unpadBytes (l : List Byte) : Option (List Byte) :=
  match l.getLast? with
  | none => none
  | some last =>
    let n := last.val
    if 1 ≤ n ∧ n ≤ 16 ∧ n ≤ l.length ∧ (l.drop (l.length - n)).all (fun b => b == last)
    then some (l.take (l.length - n)) else none

theorem padBytes_length_mod (l : List Byte) : (padBytes l).length % 16 = 0 := by
  rw [padBytes, List.length_append, List.length_replicate]
  omega

theorem unpadBytes_padBytes (l : List Byte) : unpadBytes (padBytes l) = some l := by
  have hk : 1 ≤ 16 - l.length % 16 ∧ 16 - l.length % 16 ≤ 16 := by omega
  have hval : (byteOfNat (16 - l.length % 16)).val = 16 - l.length % 16 := by
    show (16 - l.length % 16) % 256 = 16 - l.length % 16
    omega
  rw [unpadBytes, padBytes]
  rw [List.getLast?_append]
  rw [List.getLast?_replicate, if_neg (by omega)]
  show (if _ ∧ _ ∧ _ ∧ _ then _ else _) = _
  rw [if_pos]
  · rw [List.length_append, List.length_replicate, hval]
    have harith : l.length + (16 - l.length % 16) - (16 - l.length % 16) = l.length := by
      omega
    rw [harith, List.take_left]
  · refine ⟨by omega, by omega, ?_, ?_⟩
    · rw [hval, List.length_append, List.length_replicate]
      omega
    · rw [hval, List.length_append, List.length_replicate]
      have harith : l.length + (16 - l.length % 16) - (16 - l.length % 16) = l.length := by
        omega
      rw [harith, List.drop_left]
      simp

/-! ### CBC chaining -/

def cbcEncBlocks (roundKeys : List Block) (prev : Block) : List Block → List Block
  | [] => []
  | b :: bs =>
      let c := aesEncryptBlock roundKeys (xorBlock b prev)
      c :: cbcEncBlocks roundKeys c bs

def cbcDecBlocks (roundKeys : List Block) (prev : Block) : List Block → List Block
  | [] => []
  | c :: cs => xorBlock (aesDecryptBlock roundKeys c) prev :: cbcDecBlocks roundKeys c cs

theorem cbcDecBlocks_cbcEncBlocks (roundKeys : List Block) :
    ∀ (bs : List Block) (prev : Block),
      cbcDecBlocks roundKeys prev (cbcEncBlocks roundKeys prev bs) = bs := by
  intro bs
  induction bs with
  | nil => intro prev; rfl
  | cons b bs ih =>
    intro prev
    show cbcDecBlocks roundKeys prev
        (aesEncryptBlock roundKeys (xorBlock b prev) ::
          cbcEncBlocks roundKeys (aesEncryptBlock roundKeys (xorBlock b prev)) bs) = b :: bs
    rw [cbcDecBlocks, aesDecryptBlock_aesEncryptBlock, xorBlock_cancel, ih]

/-! ### Hex encoding (`hex` in and out of node crypto) -/

/-- The lowercase hex digit for a nibble. -/
def hexDigitChar (n : Nat) : Char :=
  if n < 10 then Char.ofNat (48 + n) else Char.ofNat (87 + n)

def byteToHex (b : Byte) : List Char :=
  [hexDigitChar (b.val / 16), hexDigitChar (b.val % 16)]

def bytesToHex (bs : List Byte) : List Char := (bs.map byteToHex).flatten

def hexCharVal (c : Char) : Option Nat :=
  if 48 ≤ c.toNat ∧ c.toNat ≤ 57 then some (c.toNat - 48)
  else if 97 ≤ c.toNat ∧ c.toNat ≤ 102 then some (c.toNat - 87)
  else none

def hexToBytes : List Char → Option (List Byte)
  | [] => some []
  | c1 :: c2 :: rest =>
      match hexCharVal c1, hexCharVal c2, hexToBytes rest with
      | some hi, some lo, some bs => some (byteOfNat (16 * hi + lo) :: bs)
      | _, _, _ => none
  | [_] => none

set_option maxRecDepth 8000 in
theorem hex_spec : ∀ b : Byte,
    hexCharVal (hexDigitChar (b.val / 16)) = some (b.val / 16) ∧
    hexCharVal (hexDigitChar (b.val % 16)) = some (b.val % 16) ∧
    byteOfNat (16 * (b.val / 16) + b.val % 16) = b := by
  decide

theorem hexToBytes_bytesToHex (bs : List Byte) : hexToBytes (bytesToHex bs) = some bs := by
  induction bs with
  | nil => rfl
  | cons b bs ih =>
    show hexToBytes (byteToHex b ++ bytesToHex bs) = some (b :: bs)
    show hexToBytes (hexDigitChar (b.val / 16) :: hexDigitChar (b.val % 16)
      :: bytesToHex bs) = some (b :: bs)
    rw [hexToBytes]
    rw [(hex_spec b).1, (hex_spec b).2.1, ih]
    show some (byteOfNat (16 * (b.val / 16) + b.val % 16) :: bs) = some (b :: bs)
    rw [(hex_spec b).2.2]

/-! ### The encoder itself -/

structure DefaultEncoder where
  secretKey : List Byte
  initVector : List Byte
  deriving Repr, DecidableEq

structure EncoderOptions where
  secretKey : List Byte
  initVector : List Byte
  deriving Repr, DecidableEq

/-- The private `DefaultEncoder` constructor with its length validation;
`Except.error` models the thrown `Error`. -/
def DefaultEncoder.create (secretKey initVector : List Byte) :
    Except String DefaultEncoder :=
  if secretKey.length ≠ 32 then .error "Secret key must be 32 length string"
  else if initVector.length ≠ 16 then .error "Init vector must be 16 length string"
  else .ok ⟨secretKey, initVector⟩

/-- `DefaultEncoder.fromConfig`. -/
def DefaultEncoder.fromConfig (options : EncoderOptions) :
    Except String DefaultEncoder :=
  DefaultEncoder.create options.secretKey options.initVector

/-- `DefaultEncoder.encode`: aes-256-cbc over the padded input, hex output. -/
def DefaultEncoder.encode (e : DefaultEncoder) (data : List Byte) : List Char :=
  bytesToHex (blocksToBytes (cbcEncBlocks (keyExpansion e.secretKey)
    (listToBlock e.initVector) (bytesToBlocks (padBytes data))))

/-- `DefaultEncoder.decode`: hex input, aes-256-cbc decryption, unpadding;
`none` models the places where node crypto throws (invalid hex, wrong
ciphertext length, bad padding). -/
def DefaultEncoder.decode (e : DefaultEncoder) (encoded : List Char) :
    Option (List Byte) :=
  match hexToBytes encoded with
  | none => none
  | some bytes =>
      if bytes.length % 16 = 0 then
        unpadBytes (blocksToBytes (cbcDecBlocks (keyExpansion e.secretKey)
          (listToBlock e.initVector) (bytesToBlocks bytes)))
      else none

/-- C10: every encoder built by `fromConfig` from a 32-byte secret key and
a 16-byte init vector satisfies `decode (encode data) = data` for all
data, and `fromConfig` accepts a configuration exactly when the secret key
has length 32 and the init vector length 16, rejecting anything else. -/
theorem defaultEncoder_roundtrip (key iv : List Byte) (e : DefaultEncoder)
    (_h : DefaultEncoder.fromConfig ⟨key, iv⟩ = .ok e) (data : List Byte) :
    (e.decode (e.encode data) = some data) ∧
    (∀ key2 iv2 : List Byte,
      (∃ e2, DefaultEncoder.fromConfig ⟨key2, iv2⟩ = .ok e2) ↔
        (key2.length = 32 ∧ iv2.length = 16)) := by
  constructor
  · rw [DefaultEncoder.encode, DefaultEncoder.decode, hexToBytes_bytesToHex]
    show (if (blocksToBytes (cbcEncBlocks (keyExpansion e.secretKey)
          (listToBlock e.initVector) (bytesToBlocks (padBytes data)))).length % 16 = 0
        then unpadBytes (blocksToBytes (cbcDecBlocks (keyExpansion e.secretKey)
          (listToBlock e.initVector) (bytesToBlocks (blocksToBytes
            (cbcEncBlocks (keyExpansion e.secretKey) (listToBlock e.initVector)
              (bytesToBlocks (padBytes data)))))))
        else none) = some data
    rw [if_pos (length_blocksToBytes _)]
    rw [bytesToBlocks_blocksToBytes, cbcDecBlocks_cbcEncBlocks,
      blocksToBytes_bytesToBlocks _ (padBytes_length_mod data),
      unpadBytes_padBytes]
  · intro key2 iv2
    rw [DefaultEncoder.fromConfig, DefaultEncoder.create]
    by_cases h32 : key2.length = 32 <;> by_cases h16 : iv2.length = 16 <;>
      simp [h32, h16]

theorem defaultEncoder_roundtrip_witness :
    (DefaultEncoder.fromConfig
        ⟨List.replicate 32 (0x61 : Byte), List.replicate 16 (0x62 : Byte)⟩ =
      .ok ⟨List.replicate 32 (0x61 : Byte), List.replicate 16 (0x62 : Byte)⟩) ∧
    (DefaultEncoder.decode
        ⟨List.replicate 32 (0x61 : Byte), List.replicate 16 (0x62 : Byte)⟩
        (DefaultEncoder.encode
          ⟨List.replicate 32 (0x61 : Byte), List.replicate 16 (0x62 : Byte)⟩
          [0x68, 0x69]) = some [0x68, 0x69]) :=
  ⟨rfl,
   (defaultEncoder_roundtrip (List.replicate 32 (0x61 : Byte))
      (List.replicate 16 (0x62 : Byte)) _ rfl [0x68, 0x69]).1⟩

end GrpcPlayground
